import Mathlib

/-!
Verification of the DJI flight-data decoding pipeline.

The definitions below are a shallow embedding of the Python sources:
* `src/src/infrastructure/services/protobuf_decoder.py`
  (`_decode_varint`, `_extract_all_values`, `decode`),
* `src/src/domain/entities/flight_data.py`
  (`GpsPoint`, `Telemetry`, `GpsBounds`, `FlightData` and its methods),
* `src/src/infrastructure/config/settings.py` (the coordinate filter),
* `src/decode_flight_data.py` (`decode_varint`, `decode_protobuf_raw`).

Bytes are modelled as natural numbers (reduced mod 256 where the Python
`bytes` type guarantees the range), Python floats as exact rationals via
an exact IEEE-754 bit-pattern decoder (`none` for NaN/infinity, which in
Python fail every magnitude guard used by the decoder), and Python
exceptions as `Option`.  `float.__pow__(0.5)` (the square root used by
the derived speed) is the only operation abstracted as a parameter,
`sqrtQ`; every theorem about it is quantified over that parameter.
-/

namespace DJI

/-- Loop of `ProtobufDecoder._decode_varint`: `result`/`shift` are the
Python accumulator variables; returns `(result, pos)`.  The byte read at
`pos` is `data[pos]`; `&&& 0x7F` is Python's `byte & 0x7F` and the loop
exits when `byte & 0x80` is clear or the buffer is exhausted.  `fuel` is
pure termination bookkeeping (the loop runs at most once per remaining
byte, so any `fuel ≥ data.length - pos` gives the Python behaviour; see
`decodeVarintAux_fuel_irrel`). -/
def decodeVarintAux (data : List Nat) : Nat → Nat → Nat → Nat → Nat × Nat
  | 0, pos, result, _ => (result, pos)
  | fuel + 1, pos, result, shift =>
    if pos < data.length then
      if data.getD pos 0 &&& 0x80 = 0 then
        (result ||| ((data.getD pos 0 &&& 0x7F) <<< shift), pos + 1)
      else
        decodeVarintAux data fuel (pos + 1)
          (result ||| ((data.getD pos 0 &&& 0x7F) <<< shift)) (shift + 7)
    else (result, pos)

theorem decodeVarintAux_fuel_irrel (data : List Nat) :
    ∀ f₁ f₂ pos result shift, data.length - pos ≤ f₁ → data.length - pos ≤ f₂ →
      decodeVarintAux data f₁ pos result shift = decodeVarintAux data f₂ pos result shift := by
  intro f₁
  induction f₁ with
  | zero =>
    intro f₂ pos r s h1 h2
    match f₂ with
    | 0 => rfl
    | f₂ + 1 =>
      rw [decodeVarintAux, decodeVarintAux]
      split
      · omega
      · rfl
  | succ n ih =>
    intro f₂ pos r s h1 h2
    match f₂ with
    | 0 =>
      rw [decodeVarintAux, decodeVarintAux]
      split
      · omega
      · rfl
    | f₂ + 1 =>
      rw [decodeVarintAux, decodeVarintAux]
      split
      · split
        · rfl
        · exact ih f₂ (pos + 1) _ (s + 7) (by omega) (by omega)
      · rfl

/-- `ProtobufDecoder._decode_varint(data, pos)`. -/
def decodeVarint (data : List Nat) (pos : Nat) : Nat × Nat :=
  decodeVarintAux data (data.length - pos) pos 0 0

theorem decodeVarintAux_le (data : List Nat) :
    ∀ fuel pos result shift, pos ≤ (decodeVarintAux data fuel pos result shift).2 := by
  intro fuel
  induction fuel with
  | zero => intro pos r s; exact Nat.le_refl pos
  | succ n ih =>
    intro pos r s
    rw [decodeVarintAux]
    split
    · split
      · exact Nat.le_succ pos
      · have := ih (pos + 1) (r ||| ((data.getD pos 0 &&& 0x7F) <<< s)) (s + 7)
        omega
    · exact Nat.le_refl pos

theorem decodeVarintAux_lt (data : List Nat) (fuel pos result shift : Nat)
    (h : pos < data.length) (hf : 0 < fuel) :
    pos < (decodeVarintAux data fuel pos result shift).2 := by
  match fuel with
  | 0 => omega
  | n + 1 =>
    rw [decodeVarintAux]
    simp only [h, if_pos]
    split
    · exact Nat.lt_succ_self pos
    · have := decodeVarintAux_le data n (pos + 1)
        (result ||| ((data.getD pos 0 &&& 0x7F) <<< shift)) (shift + 7)
      omega

theorem decodeVarintAux_le_length (data : List Nat) :
    ∀ fuel pos result shift, pos ≤ data.length →
      (decodeVarintAux data fuel pos result shift).2 ≤ data.length := by
  intro fuel
  induction fuel with
  | zero => intro pos r s h; exact h
  | succ n ih =>
    intro pos r s h
    rw [decodeVarintAux]
    split
    · split
      · next hlt _ => omega
      · next hlt _ =>
        exact ih (pos + 1) (r ||| ((data.getD pos 0 &&& 0x7F) <<< s)) (s + 7) (by omega)
    · exact h

theorem decodeVarint_lt (data : List Nat) (pos : Nat) (h : pos < data.length) :
    pos < (decodeVarint data pos).2 :=
  decodeVarintAux_lt data (data.length - pos) pos 0 0 h (by omega)

theorem decodeVarint_le_length (data : List Nat) (pos : Nat) (h : pos ≤ data.length) :
    (decodeVarint data pos).2 ≤ data.length :=
  decodeVarintAux_le_length data (data.length - pos) pos 0 0 h

theorem and_127 (n : Nat) : n &&& 127 = n % 128 :=
  Nat.and_pow_two_sub_one_eq_mod n 7

theorem lor_shift_add (r g s : Nat) (h : r < 2 ^ s) : r ||| g <<< s = r + g * 2 ^ s := by
  rw [Nat.shiftLeft_eq, Nat.or_comm, Nat.mul_comm, ← Nat.mul_add_lt_is_or h,
    Nat.mul_comm, Nat.add_comm]

/-- Little-endian reassembly of a byte string into an unsigned integer,
as `struct.unpack` does before interpreting the bit pattern.  Each list
element is reduced mod 256 because Python `bytes` elements lie in 0..255. -/
def leNat (bs : List Nat) : Nat :=
  bs.foldr (fun b acc => b % 256 + 256 * acc) 0

/-- Exact magnitude of an IEEE-754 value with `fb` fraction bits and
exponent bias `bias`, given the raw exponent and fraction fields.  The
three branches (subnormal, negative binary exponent, non-negative binary
exponent) all equal `significand * 2^(expo - bias - fb)` exactly. -/
def ieeeMag (expo frac fb bias : Nat) : ℚ :=
  if expo = 0 then (frac : ℚ) / ((2 ^ (bias + fb - 1) : ℕ) : ℚ)
  else if expo ≤ bias + fb then
    ((2 ^ fb + frac : ℕ) : ℚ) / ((2 ^ (bias + fb - expo) : ℕ) : ℚ)
  else ((2 ^ fb + frac : ℕ) : ℚ) * ((2 ^ (expo - (bias + fb)) : ℕ) : ℚ)

/-- `struct.unpack('<d', bs)[0]` as an exact rational: `none` when the
byte string is not exactly 8 bytes long (Python raises) or encodes
NaN/±infinity (which fail every magnitude guard the decoder applies,
exactly as `none` does here). -/
def unpackDouble (bs : List Nat) : Option ℚ :=
  if bs.length = 8 then
    if leNat bs / 2 ^ 52 % 2 ^ 11 = 2047 then none
    else if leNat bs / 2 ^ 63 % 2 = 1 then
      some (-(ieeeMag (leNat bs / 2 ^ 52 % 2 ^ 11) (leNat bs % 2 ^ 52) 52 1023))
    else some (ieeeMag (leNat bs / 2 ^ 52 % 2 ^ 11) (leNat bs % 2 ^ 52) 52 1023)
  else none

/-- `struct.unpack('<f', bs)[0]` as an exact rational (same conventions
as `unpackDouble`). -/
def unpackFloat (bs : List Nat) : Option ℚ :=
  if bs.length = 4 then
    if leNat bs / 2 ^ 23 % 2 ^ 8 = 255 then none
    else if leNat bs / 2 ^ 31 % 2 = 1 then
      some (-(ieeeMag (leNat bs / 2 ^ 23 % 2 ^ 8) (leNat bs % 2 ^ 23) 23 127))
    else some (ieeeMag (leNat bs / 2 ^ 23 % 2 ^ 8) (leNat bs % 2 ^ 23) 23 127)
  else none

/-- The wire-type tag under which `_extract_all_values` buckets a value:
`vint`, `vdbl`, `vflt` correspond to the Python key prefixes
`int_`, `dbl_`, `flt_`. -/
inductive WKind where
  | vint : WKind
  | vdbl : WKind
  | vflt : WKind
deriving DecidableEq, Repr

/-- One value recorded by `_extract_all_values`: the Python code appends
`value` to `all_values[depth][f'<kind>_<fieldNum>']`.  The flattened
chronological list of these records determines every bucket, because the
Python dict-of-lists is append-only in execution order. -/
structure Entry where
  depth : Nat
  kind : WKind
  fieldNum : Nat
  value : ℚ
deriving DecidableEq, Repr

/-- The spans `data[pos:pos+n]` used by the decoder. -/
def pySlice (data : List Nat) (pos n : Nat) : List Nat :=
  (data.drop pos).take n

/-- The `parse_recursive` closure of `ProtobufDecoder._extract_all_values`,
entered at `pos` within `data` at recursion level `depth`.  Returns the
chronological list of recorded values.  Mirrors the Python control flow:
the `depth > max_depth` entry guard, the `new_pos >= len(data)` break after
reading a tag, the four wire types, and the `break` on an unknown wire
type or on a length-delimited span that is empty or overruns the buffer.
`fuel` is pure termination bookkeeping: any `fuel > 2*data.length - pos`
gives the Python behaviour (`parseFromF_fuel_irrel`). -/
def parseFromF : Nat → Nat → Nat → List Nat → Nat → List Entry
  | 0, _, _, _, _ => []
  | fuel + 1, maxDepth, depth, data, pos =>
  if maxDepth < depth then []
  else if pos < data.length then
    if (decodeVarint data pos).2 ≥ data.length then []
    else if (decodeVarint data pos).1 % 8 = 0 then
      (if (decodeVarint data (decodeVarint data pos).2).1 < 10 ^ 15 then
        [⟨depth, WKind.vint, (decodeVarint data pos).1 / 8,
          ((decodeVarint data (decodeVarint data pos).2).1 : ℚ)⟩]
      else []) ++
        parseFromF fuel maxDepth depth data (decodeVarint data (decodeVarint data pos).2).2
    else if (decodeVarint data pos).1 % 8 = 1 then
      (if (decodeVarint data pos).2 + 8 ≤ data.length then
        match unpackDouble (pySlice data (decodeVarint data pos).2 8) with
        | some v =>
          if -(10 ^ 10) < v ∧ v < 10 ^ 10 then
            [⟨depth, WKind.vdbl, (decodeVarint data pos).1 / 8, v⟩]
          else []
        | none => []
      else []) ++ parseFromF fuel maxDepth depth data ((decodeVarint data pos).2 + 8)
    else if (decodeVarint data pos).1 % 8 = 2 then
      if (decodeVarint data (decodeVarint data pos).2).1 ≠ 0 ∧
          (decodeVarint data (decodeVarint data pos).2).2 +
            (decodeVarint data (decodeVarint data pos).2).1 ≤ data.length then
        parseFromF fuel maxDepth (depth + 1)
          (pySlice data (decodeVarint data (decodeVarint data pos).2).2
            (decodeVarint data (decodeVarint data pos).2).1) 0 ++
          parseFromF fuel maxDepth depth data
            ((decodeVarint data (decodeVarint data pos).2).2 +
              (decodeVarint data (decodeVarint data pos).2).1)
      else []
    else if (decodeVarint data pos).1 % 8 = 5 then
      (if (decodeVarint data pos).2 + 4 ≤ data.length then
        match unpackFloat (pySlice data (decodeVarint data pos).2 4) with
        | some v =>
          if -(10 ^ 10) < v ∧ v < 10 ^ 10 then
            [⟨depth, WKind.vflt, (decodeVarint data pos).1 / 8, v⟩]
          else []
        | none => []
      else []) ++ parseFromF fuel maxDepth depth data ((decodeVarint data pos).2 + 4)
    else []
  else []

/-- The loop of `parse_recursive` with canonical (always sufficient)
fuel: the form all theorems are stated about. -/
def parseLoop (maxDepth depth : Nat) (data : List Nat) (pos : Nat) : List Entry :=
  parseFromF (2 * data.length + 1) maxDepth depth data pos

theorem parseFromF_fuel_irrel :
    ∀ f₁ f₂ maxDepth depth data pos, 2 * data.length - pos < f₁ →
      2 * data.length - pos < f₂ →
      parseFromF f₁ maxDepth depth data pos = parseFromF f₂ maxDepth depth data pos := by
  intro f₁
  induction f₁ using Nat.strong_induction_on with
  | _ f₁ ih =>
    intro f₂ mD depth data pos h1 h2
    match f₁, f₂ with
    | g₁ + 1, g₂ + 1 =>
      conv_lhs => rw [parseFromF]
      conv_rhs => rw [parseFromF]
      by_cases c1 : mD < depth
      case pos => rw [if_pos c1, if_pos c1]
      rw [if_neg c1, if_neg c1]
      by_cases c2 : pos < data.length
      case neg => rw [if_neg c2, if_neg c2]
      rw [if_pos c2, if_pos c2]
      have e1 : pos < (decodeVarint data pos).2 := decodeVarint_lt data pos c2
      by_cases c3 : (decodeVarint data pos).2 ≥ data.length
      case pos => rw [if_pos c3, if_pos c3]
      rw [if_neg c3, if_neg c3]
      have hp1 : (decodeVarint data pos).2 < data.length := by omega
      by_cases c4 : (decodeVarint data pos).1 % 8 = 0
      case pos =>
        rw [if_pos c4, if_pos c4]
        have e2 : (decodeVarint data pos).2 <
            (decodeVarint data (decodeVarint data pos).2).2 :=
          decodeVarint_lt data _ hp1
        congr 1
        exact ih g₁ (by omega) g₂ mD depth data _ (by omega) (by omega)
      rw [if_neg c4, if_neg c4]
      by_cases c5 : (decodeVarint data pos).1 % 8 = 1
      case pos =>
        rw [if_pos c5, if_pos c5]
        congr 1
        exact ih g₁ (by omega) g₂ mD depth data _ (by omega) (by omega)
      rw [if_neg c5, if_neg c5]
      by_cases c6 : (decodeVarint data pos).1 % 8 = 2
      case pos =>
        rw [if_pos c6, if_pos c6]
        have e2 : (decodeVarint data pos).2 <
            (decodeVarint data (decodeVarint data pos).2).2 :=
          decodeVarint_lt data _ hp1
        by_cases c7 : (decodeVarint data (decodeVarint data pos).2).1 ≠ 0 ∧
            (decodeVarint data (decodeVarint data pos).2).2 +
              (decodeVarint data (decodeVarint data pos).2).1 ≤ data.length
        case pos =>
          rw [if_pos c7, if_pos c7]
          have hsl : (pySlice data (decodeVarint data (decodeVarint data pos).2).2
              (decodeVarint data (decodeVarint data pos).2).1).length =
              (decodeVarint data (decodeVarint data pos).2).1 := by
            simp only [pySlice, List.length_take, List.length_drop]
            omega
          congr 1
          · exact ih g₁ (by omega) g₂ mD (depth + 1) _ 0 (by omega) (by omega)
          · exact ih g₁ (by omega) g₂ mD depth data _ (by omega) (by omega)
        case neg => rw [if_neg c7, if_neg c7]
      rw [if_neg c6, if_neg c6]
      by_cases c8 : (decodeVarint data pos).1 % 8 = 5
      case pos =>
        rw [if_pos c8, if_pos c8]
        congr 1
        exact ih g₁ (by omega) g₂ mD depth data _ (by omega) (by omega)
      case neg => rw [if_neg c8, if_neg c8]

theorem parseLoop_eq_parseFromF (fuel maxDepth depth : Nat) (data : List Nat) (pos : Nat)
    (h : 2 * data.length - pos < fuel) :
    parseLoop maxDepth depth data pos = parseFromF fuel maxDepth depth data pos :=
  parseFromF_fuel_irrel (2 * data.length + 1) fuel maxDepth depth data pos (by omega) h

/-- `ProtobufDecoder._extract_all_values(data)` with the default
`max_depth = 6`, flattened to the chronological record list. -/
def collect (data : List Nat) : List Entry :=
  parseLoop 6 0 data 0

/-- The list `all_values[depth][f'<kind>_<fieldNum>']` reconstructed from
the chronological record list. -/
def bucket (depth : Nat) (kind : WKind) (fieldNum : Nat) (es : List Entry) : List ℚ :=
  es.filterMap fun e =>
    if e.depth = depth ∧ e.kind = kind ∧ e.fieldNum = fieldNum then some e.value else none

/-- The coordinate filter of `Settings` (`settings.py`): `lat_min`,
`lat_max`, `lon_min`, `lon_max`. -/
structure Settings where
  lat_min : ℚ
  lat_max : ℚ
  lon_min : ℚ
  lon_max : ℚ
deriving DecidableEq, Repr

/-- The default coordinate filter (Brazil): `LAT_MIN=-35`, `LAT_MAX=-5`,
`LON_MIN=-75`, `LON_MAX=-35`. -/
def defaultSettings : Settings :=
  ⟨-35, -5, -75, -35⟩

/-- Round-half-to-even to an integer, the idealisation of Python's
`round` on exact values. -/
def roundHalfEven (q : ℚ) : ℤ :=
  if q - ⌊q⌋ < 1 / 2 then ⌊q⌋
  else if 1 / 2 < q - ⌊q⌋ then ⌊q⌋ + 1
  else if ⌊q⌋ % 2 = 0 then ⌊q⌋ else ⌊q⌋ + 1

/-- Python `round(q, 2)` idealised over exact rationals. -/
def round2 (q : ℚ) : ℚ :=
  (roundHalfEven (q * 100) : ℚ) / 100

/-- Python `round(q, 6)` idealised over exact rationals. -/
def round6 (q : ℚ) : ℚ :=
  (roundHalfEven (q * 1000000) : ℚ) / 1000000

/-- `GpsPoint` (`flight_data.py`): index, coordinates, and the four
optional telemetry readings. -/
structure GpsPoint where
  index : Nat
  latitude : ℚ
  longitude : ℚ
  heading : Option ℚ
  velocity_x : Option ℚ
  velocity_y : Option ℚ
  spray_rate : Option ℚ
deriving DecidableEq, Repr

/-- The derived property `GpsPoint.speed_ms`:
`round((vx**2 + vy**2)**0.5, 2)` when both components are present, else
`None`.  `sqrtQ` abstracts the floating-point square root. -/
def speed_ms (sqrtQ : ℚ → ℚ) (p : GpsPoint) : Option ℚ :=
  match p.velocity_x, p.velocity_y with
  | some vx, some vy => some (round2 (sqrtQ (vx ^ 2 + vy ^ 2)))
  | _, _ => none

/-- `Telemetry` (`flight_data.py`): note there is no `speed_min_ms`
field in the source dataclass. -/
structure Telemetry where
  heading_avg : Option ℚ
  heading_min : Option ℚ
  heading_max : Option ℚ
  speed_avg_ms : Option ℚ
  speed_max_ms : Option ℚ
  spray_rate_avg : Option ℚ
  spray_rate_min : Option ℚ
  spray_rate_max : Option ℚ
deriving DecidableEq, Repr

/-- `GpsBounds` (`flight_data.py`). -/
structure GpsBounds where
  lat_min : ℚ
  lat_max : ℚ
  lon_min : ℚ
  lon_max : ℚ
deriving DecidableEq, Repr

/-- `FlightData` (`flight_data.py`). -/
structure FlightData where
  record_id : String
  points : List GpsPoint
  telemetry : Option Telemetry
  bounds : Option GpsBounds
deriving DecidableEq, Repr

/-- Python `min` over a non-empty list (call sites guard emptiness). -/
def pyMin (l : List ℚ) : ℚ :=
  match l with
  | [] => 0
  | x :: xs => xs.foldl min x

/-- Python `max` over a non-empty list (call sites guard emptiness). -/
def pyMax (l : List ℚ) : ℚ :=
  match l with
  | [] => 0
  | x :: xs => xs.foldl max x

/-- `FlightData.calculate_bounds`: `None` for an empty point list
(leaving `bounds` unset), else the min/max of the coordinate lists. -/
def calcBounds (pts : List GpsPoint) : Option GpsBounds :=
  if pts = [] then none
  else some
    ⟨pyMin (pts.map (·.latitude)), pyMax (pts.map (·.latitude)),
     pyMin (pts.map (·.longitude)), pyMax (pts.map (·.longitude))⟩

/-- `FlightData.calculate_telemetry`: per-signal statistics over the
defined values, `None` when no value contributes.  The source computes
no minimum for the derived speed. -/
def calcTelemetry (sqrtQ : ℚ → ℚ) (pts : List GpsPoint) : Telemetry :=
  { heading_avg :=
      if pts.filterMap (·.heading) = [] then none
      else some (round2 ((pts.filterMap (·.heading)).sum /
        ((pts.filterMap (·.heading)).length : ℚ)))
    heading_min :=
      if pts.filterMap (·.heading) = [] then none
      else some (round2 (pyMin (pts.filterMap (·.heading))))
    heading_max :=
      if pts.filterMap (·.heading) = [] then none
      else some (round2 (pyMax (pts.filterMap (·.heading))))
    speed_avg_ms :=
      if pts.filterMap (speed_ms sqrtQ) = [] then none
      else some (round2 ((pts.filterMap (speed_ms sqrtQ)).sum /
        ((pts.filterMap (speed_ms sqrtQ)).length : ℚ)))
    speed_max_ms :=
      if pts.filterMap (speed_ms sqrtQ) = [] then none
      else some (round2 (pyMax (pts.filterMap (speed_ms sqrtQ))))
    spray_rate_avg :=
      if pts.filterMap (·.spray_rate) = [] then none
      else some (round2 ((pts.filterMap (·.spray_rate)).sum /
        ((pts.filterMap (·.spray_rate)).length : ℚ)))
    spray_rate_min :=
      if pts.filterMap (·.spray_rate) = [] then none
      else some (round2 (pyMin (pts.filterMap (·.spray_rate))))
    spray_rate_max :=
      if pts.filterMap (·.spray_rate) = [] then none
      else some (round2 (pyMax (pts.filterMap (·.spray_rate)))) }

/-- The per-index body of the `for i in range(num_raw)` loop in
`ProtobufDecoder.decode`: the optional heading
(`i < len(raw_headings) and -180 <= h <= 180`). -/
def headingAt (heads : List ℚ) (i : Nat) : Option ℚ :=
  match heads.get? i with
  | some h => if -180 ≤ h ∧ h ≤ 180 then some (round2 h) else none
  | none => none

/-- The optional velocity component (`-30 < v < 30`, strict). -/
def velocityAt (vels : List ℚ) (i : Nat) : Option ℚ :=
  match vels.get? i with
  | some v => if -30 < v ∧ v < 30 then some (round2 v) else none
  | none => none

/-- The optional spray rate (`0 < s < 50`, strict). -/
def sprayAt (sprays : List ℚ) (i : Nat) : Option ℚ :=
  match sprays.get? i with
  | some v => if 0 < v ∧ v < 50 then some (round2 v) else none
  | none => none

/-- The joint coordinate filter of `ProtobufDecoder.decode`:
`lat_min < lat < lat_max and lon_min < lon < lon_max` (all strict). -/
def inBounds (s : Settings) (lat lon : ℚ) : Prop :=
  s.lat_min < lat ∧ lat < s.lat_max ∧ s.lon_min < lon ∧ lon < s.lon_max

instance (s : Settings) (lat lon : ℚ) : Decidable (inBounds s lat lon) := by
  unfold inBounds
  infer_instance

/-- The point-building loop of `ProtobufDecoder.decode`: `i` is the loop
counter `for i in range(num_raw)`, `validIndex` the acceptance counter.
`fuel` is pure termination bookkeeping: the loop runs `num_raw` times, so
any `fuel ≥ min lats.length lons.length - i` gives the Python behaviour. -/
def assembleGo (s : Settings) (lats lons heads vxs vys sprays : List ℚ) :
    Nat → Nat → Nat → List GpsPoint
  | 0, _, _ => []
  | fuel + 1, i, validIndex =>
    if i < min lats.length lons.length then
      if inBounds s (lats.getD i 0) (lons.getD i 0) then
        ⟨validIndex, lats.getD i 0, lons.getD i 0, headingAt heads i,
          velocityAt vxs i, velocityAt vys i, sprayAt sprays i⟩ ::
          assembleGo s lats lons heads vxs vys sprays fuel (i + 1) (validIndex + 1)
      else assembleGo s lats lons heads vxs vys sprays fuel (i + 1) validIndex
    else []

/-- The whole filtering loop of `ProtobufDecoder.decode`. -/
def assemble (s : Settings) (lats lons heads vxs vys sprays : List ℚ) : List GpsPoint :=
  assembleGo s lats lons heads vxs vys sprays (min lats.length lons.length) 0 0

/-- `ProtobufDecoder.decode(binary_data, record_id)`: extract the buckets
at depth 3 (`dbl_1`, `dbl_2`, `dbl_3`, `flt_1`, `flt_2`, `flt_3`), filter
coordinate pairs, then run `calculate_bounds` and `calculate_telemetry`
on the resulting `FlightData`. -/
def decode (s : Settings) (sqrtQ : ℚ → ℚ) (data : List Nat) (rid : String) : FlightData :=
  { record_id := rid
    points := assemble s (bucket 3 WKind.vdbl 1 (collect data))
      (bucket 3 WKind.vdbl 2 (collect data)) (bucket 3 WKind.vdbl 3 (collect data))
      (bucket 3 WKind.vflt 1 (collect data)) (bucket 3 WKind.vflt 2 (collect data))
      (bucket 3 WKind.vflt 3 (collect data))
    telemetry := some (calcTelemetry sqrtQ (assemble s
      (bucket 3 WKind.vdbl 1 (collect data)) (bucket 3 WKind.vdbl 2 (collect data))
      (bucket 3 WKind.vdbl 3 (collect data)) (bucket 3 WKind.vflt 1 (collect data))
      (bucket 3 WKind.vflt 2 (collect data)) (bucket 3 WKind.vflt 3 (collect data))))
    bounds := calcBounds (assemble s
      (bucket 3 WKind.vdbl 1 (collect data)) (bucket 3 WKind.vdbl 2 (collect data))
      (bucket 3 WKind.vdbl 3 (collect data)) (bucket 3 WKind.vflt 1 (collect data))
      (bucket 3 WKind.vflt 2 (collect data)) (bucket 3 WKind.vflt 3 (collect data))) }

/-- Exception-aware version of the point-building loop: the raw list
subscripts `raw_lats[i]` / `raw_lons[i]` (the only unguarded accesses in
`ProtobufDecoder.decode`) are modelled by `List.get?`, so an
out-of-range access — a Python `IndexError` — yields `none`. -/
def assembleGoE (s : Settings) (lats lons heads vxs vys sprays : List ℚ) :
    Nat → Nat → Nat → Option (List GpsPoint)
  | 0, _, _ => some []
  | fuel + 1, i, validIndex =>
    if i < min lats.length lons.length then
      match lats.get? i, lons.get? i with
      | some lat, some lon =>
        if inBounds s lat lon then
          (assembleGoE s lats lons heads vxs vys sprays fuel (i + 1) (validIndex + 1)).map
            (⟨validIndex, lat, lon, headingAt heads i, velocityAt vxs i,
              velocityAt vys i, sprayAt sprays i⟩ :: ·)
        else assembleGoE s lats lons heads vxs vys sprays fuel (i + 1) validIndex
      | _, _ => none
    else some []

/-- Exception-aware `ProtobufDecoder.decode`: `none` would be an escaped
Python exception. -/
def decodeE (s : Settings) (sqrtQ : ℚ → ℚ) (data : List Nat) (rid : String) :
    Option FlightData :=
  (assembleGoE s (bucket 3 WKind.vdbl 1 (collect data))
      (bucket 3 WKind.vdbl 2 (collect data)) (bucket 3 WKind.vdbl 3 (collect data))
      (bucket 3 WKind.vflt 1 (collect data)) (bucket 3 WKind.vflt 2 (collect data))
      (bucket 3 WKind.vflt 3 (collect data))
      (min (bucket 3 WKind.vdbl 1 (collect data)).length
        (bucket 3 WKind.vdbl 2 (collect data)).length) 0 0).map fun pts =>
    { record_id := rid
      points := pts
      telemetry := some (calcTelemetry sqrtQ pts)
      bounds := calcBounds pts }

/-- JSON values, for the dictionaries built by `FlightData.to_geojson`
and `GpsPoint.to_dict`. -/
inductive Json where
  | null : Json
  | num : ℚ → Json
  | str : String → Json
  | arr : List Json → Json
  | obj : List (String × Json) → Json

/-- Lift an optional rational into JSON (`None` → `null`). -/
def optNum (q : Option ℚ) : Json :=
  match q with
  | some v => Json.num v
  | none => Json.null

/-- `GpsPoint.to_dict` (`flight_data.py`): all eight keys, values as
stored; only the derived `speed_ms` involves rounding (inside the
`speed_ms` property). -/
def toDict (sqrtQ : ℚ → ℚ) (p : GpsPoint) : List (String × Json) :=
  [("index", Json.num p.index), ("latitude", Json.num p.latitude),
   ("longitude", Json.num p.longitude), ("heading", optNum p.heading),
   ("velocity_x", optNum p.velocity_x), ("velocity_y", optNum p.velocity_y),
   ("spray_rate", optNum p.spray_rate), ("speed_ms", optNum (speed_ms sqrtQ p))]

/-- `FlightData.to_geojson(record=None)` (`flight_data.py`): the
`LineString` route feature, one `Point` feature per point (coordinates
`[lon, lat]` exactly as stored, properties `p.to_dict()`), and the
top-level properties with the optional `gps` and `telemetry` blocks. -/
def toGeojson (sqrtQ : ℚ → ℚ) (fd : FlightData) : Json :=
  Json.obj
    [("type", Json.str ("FeatureCollection")),
     ("name", Json.str ("DJI AG Flight " ++ fd.record_id)),
     ("properties", Json.obj
       ([("record_id", Json.str fd.record_id),
         ("total_points", Json.num fd.points.length)] ++
        (match fd.bounds with
         | some b =>
           [("gps", Json.obj
             [("lat_min", Json.num b.lat_min), ("lat_max", Json.num b.lat_max),
              ("lon_min", Json.num b.lon_min), ("lon_max", Json.num b.lon_max),
              ("center_lat", Json.num ((b.lat_min + b.lat_max) / 2)),
              ("center_lon", Json.num ((b.lon_min + b.lon_max) / 2))])]
         | none => []) ++
        (match fd.telemetry with
         | some t =>
           [("telemetry", Json.obj
             [("heading_avg", optNum t.heading_avg),
              ("heading_min", optNum t.heading_min),
              ("heading_max", optNum t.heading_max),
              ("speed_avg_ms", optNum t.speed_avg_ms),
              ("speed_max_ms", optNum t.speed_max_ms),
              ("spray_rate_avg", optNum t.spray_rate_avg)])]
         | none => []))),
     ("features", Json.arr
       (Json.obj
         [("type", Json.str ("Feature")),
          ("geometry", Json.obj
            [("type", Json.str ("LineString")),
             ("coordinates", Json.arr (fd.points.map fun p =>
               Json.arr [Json.num p.longitude, Json.num p.latitude]))]),
          ("properties", Json.obj
            [("type", Json.str ("flight_path")),
             ("total_points", Json.num fd.points.length)])] ::
        fd.points.map fun p =>
          Json.obj
            [("type", Json.str ("Feature")),
             ("geometry", Json.obj
               [("type", Json.str ("Point")),
                ("coordinates", Json.arr [Json.num p.longitude, Json.num p.latitude])]),
             ("properties", Json.obj (toDict sqrtQ p))]))]

/-- Key lookup in a JSON object (`none` on a non-object or missing key). -/
def jGet (j : Json) (k : String) : Option Json :=
  match j with
  | Json.obj l => l.lookup k
  | _ => none

/-- Loop of `decode_varint` in `decode_flight_data.py`: unlike the class
version, it returns `(None, pos)` when the buffer ends before a byte
without the continuation bit is found. -/
def decodeVarintRAux (data : List Nat) : Nat → Nat → Nat → Nat → Option Nat × Nat
  | 0, pos, _, _ => (none, pos)
  | fuel + 1, pos, result, shift =>
    if pos < data.length then
      if data.getD pos 0 &&& 0x80 = 0 then
        (some (result ||| ((data.getD pos 0 &&& 0x7F) <<< shift)), pos + 1)
      else
        decodeVarintRAux data fuel (pos + 1)
          (result ||| ((data.getD pos 0 &&& 0x7F) <<< shift)) (shift + 7)
    else (none, pos)

/-- `decode_varint(data, pos)` of `decode_flight_data.py`. -/
def decodeVarintR (data : List Nat) (pos : Nat) : Option Nat × Nat :=
  decodeVarintRAux data (data.length - pos) pos 0 0

theorem decodeVarintRAux_fuel_irrel (data : List Nat) :
    ∀ f₁ f₂ pos result shift, data.length - pos ≤ f₁ → data.length - pos ≤ f₂ →
      decodeVarintRAux data f₁ pos result shift = decodeVarintRAux data f₂ pos result shift := by
  intro f₁
  induction f₁ with
  | zero =>
    intro f₂ pos r s h1 h2
    match f₂ with
    | 0 => rfl
    | f₂ + 1 =>
      rw [decodeVarintRAux, decodeVarintRAux]
      split
      · omega
      · rfl
  | succ n ih =>
    intro f₂ pos r s h1 h2
    match f₂ with
    | 0 =>
      rw [decodeVarintRAux, decodeVarintRAux]
      split
      · omega
      · rfl
    | f₂ + 1 =>
      rw [decodeVarintRAux, decodeVarintRAux]
      split
      · split
        · rfl
        · exact ih f₂ (pos + 1) _ (s + 7) (by omega) (by omega)
      · rfl

theorem decodeVarintRAux_le (data : List Nat) :
    ∀ fuel pos result shift, pos ≤ (decodeVarintRAux data fuel pos result shift).2 := by
  intro fuel
  induction fuel with
  | zero => intro pos r s; exact Nat.le_refl pos
  | succ n ih =>
    intro pos r s
    rw [decodeVarintRAux]
    split
    · split
      · exact Nat.le_succ pos
      · have := ih (pos + 1) (r ||| ((data.getD pos 0 &&& 0x7F) <<< s)) (s + 7)
        omega
    · exact Nat.le_refl pos

theorem decodeVarintRAux_some_lt (data : List Nat) :
    ∀ fuel pos result shift v p,
      decodeVarintRAux data fuel pos result shift = (some v, p) → pos < p := by
  intro fuel
  induction fuel with
  | zero =>
    intro pos r s v p he
    exact absurd (congrArg Prod.fst he) (by simp [decodeVarintRAux])
  | succ n ih =>
    intro pos r s v p he
    rw [decodeVarintRAux] at he
    split at he
    · split at he
      · have := congrArg Prod.snd he
        simp only at this
        omega
      · have := ih (pos + 1) _ (s + 7) v p he
        omega
    · exact absurd (congrArg Prod.fst he) (by simp)

theorem decodeVarintR_some_lt (data : List Nat) (pos v p : Nat)
    (h : decodeVarintR data pos = (some v, p)) : pos < p :=
  decodeVarintRAux_some_lt data (data.length - pos) pos 0 0 v p h

theorem decodeVarintR_le (data : List Nat) (pos : Nat) :
    pos ≤ (decodeVarintR data pos).2 :=
  decodeVarintRAux_le data (data.length - pos) pos 0 0

/-- Strict UTF-8 decoding of a byte string into the list of its code
points, as `bytes.decode('utf-8')`: `none` exactly when Python raises
`UnicodeDecodeError` (invalid leading byte, invalid continuation byte,
overlong form, surrogate, or value above U+10FFFF). -/
def utf8Decode (l : List Nat) : Option (List Nat) :=
  match l with
  | [] => some []
  | b :: rest =>
    if b < 0x80 then (utf8Decode rest).map (b :: ·)
    else if 0xC2 ≤ b ∧ b ≤ 0xDF then
      match rest with
      | b2 :: rest2 =>
        if 0x80 ≤ b2 ∧ b2 ≤ 0xBF then
          (utf8Decode rest2).map (((b - 0xC0) * 64 + (b2 - 0x80)) :: ·)
        else none
      | [] => none
    else if 0xE0 ≤ b ∧ b ≤ 0xEF then
      match rest with
      | b2 :: b3 :: rest3 =>
        if (if b = 0xE0 then 0xA0 ≤ b2 ∧ b2 ≤ 0xBF
            else if b = 0xED then 0x80 ≤ b2 ∧ b2 ≤ 0x9F
            else 0x80 ≤ b2 ∧ b2 ≤ 0xBF) ∧ 0x80 ≤ b3 ∧ b3 ≤ 0xBF then
          (utf8Decode rest3).map
            (((b - 0xE0) * 4096 + (b2 - 0x80) * 64 + (b3 - 0x80)) :: ·)
        else none
      | _ => none
    else if 0xF0 ≤ b ∧ b ≤ 0xF4 then
      match rest with
      | b2 :: b3 :: b4 :: rest4 =>
        if (if b = 0xF0 then 0x90 ≤ b2 ∧ b2 ≤ 0xBF
            else if b = 0xF4 then 0x80 ≤ b2 ∧ b2 ≤ 0x8F
            else 0x80 ≤ b2 ∧ b2 ≤ 0xBF) ∧
            (0x80 ≤ b3 ∧ b3 ≤ 0xBF) ∧ (0x80 ≤ b4 ∧ b4 ≤ 0xBF) then
          (utf8Decode rest4).map
            (((b - 0xF0) * 262144 + (b2 - 0x80) * 4096 +
              (b3 - 0x80) * 64 + (b4 - 0x80)) :: ·)
        else none
      | _ => none
    else none


/-- The printability test of `decode_protobuf_raw`:
`all(c.isprintable() or c in '\n\r\t' for c in value_str)`, with the
Unicode-table predicate `str.isprintable` abstracted as the parameter
`printable` over code points. -/
def printableOk (printable : Nat → Bool) (cps : List Nat) : Bool :=
  cps.all fun c => printable c || c = 10 || c = 13 || c = 9

/-- `str.isprintable` restricted to ASCII code points, where it is
exactly "0x20 to 0x7E": the instantiation used for concrete inputs,
all of which are pure ASCII. -/
def asciiPrintable (c : Nat) : Bool :=
  0x20 ≤ c && c ≤ 0x7E

/-- One element of the `results` list built by `decode_protobuf_raw`:
the Python dicts tagged `varint` / `fixed64` / `string` / `message` /
`bytes` / `fixed32`.  `fixed64`/`fixed32` carry both the float view
(`none` for NaN/infinity) and the unsigned-integer view; `bytesv` keeps
the raw span (the Python dict stores its length and a hex preview of it). -/
inductive RawItem where
  | vint : Nat → Option Nat → RawItem
  | fixed64 : Nat → Option ℚ → Nat → RawItem
  | strv : Nat → List Nat → RawItem
  | msg : Nat → List RawItem → RawItem
  | bytesv : Nat → List Nat → RawItem
  | fixed32 : Nat → Option ℚ → Nat → RawItem

/-- The `while` loop of `decode_protobuf_raw(data)` entered at `pos`:
tag, then dispatch on wire type; for a length-delimited span, first the
printable-string attempt (`continue` on success), then the nested-message
attempt (only for spans longer than 2 bytes whose parse is non-empty,
`continue` on success), else a raw-bytes record. -/
def rawLoopF (printable : Nat → Bool) : Nat → List Nat → Nat → List RawItem
  | 0, _, _ => []
  | fuel + 1, data, pos =>
  if pos < data.length then
    match decodeVarintR data pos with
    | (none, _) => []
    | (some tag, p1) =>
      if tag % 8 = 0 then
        RawItem.vint (tag / 8) (decodeVarintR data p1).1 ::
          rawLoopF printable fuel data (decodeVarintR data p1).2
      else if tag % 8 = 1 then
        if p1 + 8 > data.length then []
        else
          RawItem.fixed64 (tag / 8) (unpackDouble (pySlice data p1 8))
            (leNat (pySlice data p1 8)) :: rawLoopF printable fuel data (p1 + 8)
      else if tag % 8 = 2 then
        match decodeVarintR data p1 with
        | (none, _) => []
        | (some len, p2) =>
          if p2 + len > data.length then []
          else
            match utf8Decode (pySlice data p2 len) with
            | some cps =>
              if printableOk printable cps ∧ cps.length > 0 then
                RawItem.strv (tag / 8) cps :: rawLoopF printable fuel data (p2 + len)
              else if 2 < len ∧
                  (rawLoopF printable fuel (pySlice data p2 len) 0).isEmpty = false then
                RawItem.msg (tag / 8) (rawLoopF printable fuel (pySlice data p2 len) 0) ::
                  rawLoopF printable fuel data (p2 + len)
              else
                RawItem.bytesv (tag / 8) (pySlice data p2 len) ::
                  rawLoopF printable fuel data (p2 + len)
            | none =>
              if 2 < len ∧
                  (rawLoopF printable fuel (pySlice data p2 len) 0).isEmpty = false then
                RawItem.msg (tag / 8) (rawLoopF printable fuel (pySlice data p2 len) 0) ::
                  rawLoopF printable fuel data (p2 + len)
              else
                RawItem.bytesv (tag / 8) (pySlice data p2 len) ::
                  rawLoopF printable fuel data (p2 + len)
      else if tag % 8 = 5 then
        if p1 + 4 > data.length then []
        else
          RawItem.fixed32 (tag / 8) (unpackFloat (pySlice data p1 4))
            (leNat (pySlice data p1 4)) :: rawLoopF printable fuel data (p1 + 4)
      else []
  else []

theorem rawLoopF_fuel_irrel (printable : Nat → Bool) :
    ∀ f₁ f₂ data pos, 2 * data.length - pos < f₁ → 2 * data.length - pos < f₂ →
      rawLoopF printable f₁ data pos = rawLoopF printable f₂ data pos := by
  intro f₁
  induction f₁ using Nat.strong_induction_on with
  | _ f₁ ih =>
    intro f₂ data pos h1 h2
    match f₁, f₂ with
    | g₁ + 1, g₂ + 1 =>
      conv_lhs => rw [rawLoopF]
      conv_rhs => rw [rawLoopF]
      by_cases c1 : pos < data.length
      case neg => rw [if_neg c1, if_neg c1]
      rw [if_pos c1, if_pos c1]
      match h3 : decodeVarintR data pos with
      | (none, q) => rfl
      | (some tag, p1) =>
        simp only []
        have e1 : pos < p1 := decodeVarintR_some_lt data pos tag p1 h3
        by_cases c2 : tag % 8 = 0
        case pos =>
          rw [if_pos c2, if_pos c2]
          have e2 : p1 ≤ (decodeVarintR data p1).2 := decodeVarintR_le data p1
          congr 1
          exact ih g₁ (by omega) g₂ data _ (by omega) (by omega)
        rw [if_neg c2, if_neg c2]
        by_cases c3 : tag % 8 = 1
        case pos =>
          rw [if_pos c3, if_pos c3]
          by_cases c4 : p1 + 8 > data.length
          case pos => rw [if_pos c4, if_pos c4]
          rw [if_neg c4, if_neg c4]
          congr 1
          exact ih g₁ (by omega) g₂ data _ (by omega) (by omega)
        rw [if_neg c3, if_neg c3]
        by_cases c5 : tag % 8 = 2
        case pos =>
          rw [if_pos c5, if_pos c5]
          match h4 : decodeVarintR data p1 with
          | (none, q) => rfl
          | (some len, p2) =>
            simp only []
            have e2 : p1 < p2 := decodeVarintR_some_lt data p1 len p2 h4
            by_cases c6 : p2 + len > data.length
            case pos => rw [if_pos c6, if_pos c6]
            rw [if_neg c6, if_neg c6]
            have hsl : (pySlice data p2 len).length = len := by
              simp only [pySlice, List.length_take, List.length_drop]
              omega
            have hnest : rawLoopF printable g₁ (pySlice data p2 len) 0 =
                rawLoopF printable g₂ (pySlice data p2 len) 0 :=
              ih g₁ (by omega) g₂ _ 0 (by omega) (by omega)
            have hcont : rawLoopF printable g₁ data (p2 + len) =
                rawLoopF printable g₂ data (p2 + len) :=
              ih g₁ (by omega) g₂ data _ (by omega) (by omega)
            match utf8Decode (pySlice data p2 len) with
            | some cps =>
              simp only []
              by_cases c7 : printableOk printable cps ∧ cps.length > 0
              case pos =>
                rw [if_pos c7, if_pos c7, hcont]
              rw [if_neg c7, if_neg c7, hnest, hcont]
            | none =>
              simp only []
              rw [hnest, hcont]
        rw [if_neg c5, if_neg c5]
        by_cases c8 : tag % 8 = 5
        case pos =>
          rw [if_pos c8, if_pos c8]
          by_cases c9 : p1 + 4 > data.length
          case pos => rw [if_pos c9, if_pos c9]
          rw [if_neg c9, if_neg c9]
          congr 1
          exact ih g₁ (by omega) g₂ data _ (by omega) (by omega)
        case neg => rw [if_neg c8, if_neg c8]

/-- The `while` loop of `decode_protobuf_raw` entered at `pos`, with
canonical (always sufficient) fuel. -/
def rawLoop (printable : Nat → Bool) (data : List Nat) (pos : Nat) : List RawItem :=
  rawLoopF printable (2 * data.length + 1) data pos

theorem rawLoop_eq_rawLoopF (printable : Nat → Bool) (fuel : Nat) (data : List Nat)
    (pos : Nat) (h : 2 * data.length - pos < fuel) :
    rawLoop printable data pos = rawLoopF printable fuel data pos :=
  rawLoopF_fuel_irrel printable (2 * data.length + 1) fuel data pos (by omega) h

/-- `decode_protobuf_raw(data)` of `decode_flight_data.py`. -/
def decodeProtobufRaw (printable : Nat → Bool) (data : List Nat) : List RawItem :=
  rawLoop printable data 0

theorem assembleGoE_eq_some (s : Settings) (lats lons heads vxs vys sprays : List ℚ) :
    ∀ fuel i v, assembleGoE s lats lons heads vxs vys sprays fuel i v =
      some (assembleGo s lats lons heads vxs vys sprays fuel i v) := by
  intro fuel
  induction fuel with
  | zero => intro i v; rfl
  | succ n ih =>
    intro i v
    rw [assembleGoE, assembleGo]
    split
    · next hi =>
      have hi1 : i < lats.length := by omega
      have hi2 : i < lons.length := by omega
      rw [List.get?_eq_getElem?, List.getElem?_eq_getElem hi1,
        List.get?_eq_getElem?, List.getElem?_eq_getElem hi2]
      have hd1 : lats.getD i 0 = lats[i] := List.getD_eq_getElem lats 0 hi1
      have hd2 : lons.getD i 0 = lons[i] := List.getD_eq_getElem lons 0 hi2
      simp only []
      rw [← hd1, ← hd2]
      split
      · rw [ih]
        rfl
      · exact ih (i + 1) v
    · rfl

/-- C2: for every byte buffer the decode pipeline returns normally — the
exception-aware model `decodeE`, in which the unguarded `raw_lats[i]` /
`raw_lons[i]` subscripts of `ProtobufDecoder.decode` are `List.get?` and
an escaped `IndexError` would be `none`, always yields `some` (every
other raising operation in the source is either behind an explicit bounds
test — `struct.unpack` behind `pos + 8 <= len(data)` / `pos + 4 <=
len(data)`, the auxiliary subscripts behind `i < len(...)`, `min` /
`max` / `sum` behind the emptiness guards — or inside the collector's
bare `except`, which only breaks the loop).  Moreover the only
observable failure mode is a zero-point `FlightData`: for EVERY buffer
whose decode yields no points, the result has unset bounds and a
telemetry record whose statistics are all `None`; in particular the
empty buffer decodes to exactly that `FlightData`. -/
theorem decode_never_raises_and_empty (s : Settings) (sqrtQ : ℚ → ℚ)
    (data : List Nat) (rid : String) :
    decodeE s sqrtQ data rid = some (decode s sqrtQ data rid) ∧
    ((decode s sqrtQ data rid).points = [] →
      (decode s sqrtQ data rid).bounds = none ∧
      (decode s sqrtQ data rid).telemetry =
        some ⟨none, none, none, none, none, none, none, none⟩) ∧
    decode s sqrtQ [] rid =
      { record_id := rid, points := [],
        telemetry := some ⟨none, none, none, none, none, none, none, none⟩,
        bounds := none } := by
  refine ⟨?_, ?_, ?_⟩
  · rw [decodeE, decode, assembleGoE_eq_some]
    rfl
  · intro h
    constructor
    · show calcBounds ((decode s sqrtQ data rid).points) = none
      rw [h]
      rfl
    · show some (calcTelemetry sqrtQ ((decode s sqrtQ data rid).points)) =
        some ⟨none, none, none, none, none, none, none, none⟩
      rw [h]
      rfl
  · rfl

theorem decode_never_raises_and_empty_witness :
    (decode defaultSettings (fun q => q) [] ("r")).points = [] ∧
    ((decode defaultSettings (fun q => q) [] ("r")).bounds = none ∧
     (decode defaultSettings (fun q => q) [] ("r")).telemetry =
       some ⟨none, none, none, none, none, none, none, none⟩) :=
  ⟨by with_unfolding_all rfl,
   (decode_never_raises_and_empty defaultSettings (fun q => q) [] ("r")).2.1
     (by with_unfolding_all rfl)⟩

theorem assembleGo_mem_inBounds (s : Settings) (lats lons heads vxs vys sprays : List ℚ) :
    ∀ fuel i v p, p ∈ assembleGo s lats lons heads vxs vys sprays fuel i v →
      inBounds s p.latitude p.longitude := by
  intro fuel
  induction fuel with
  | zero => intro i v p hp; exact absurd hp (List.not_mem_nil p)
  | succ n ih =>
    intro i v p hp
    rw [assembleGo] at hp
    split at hp
    · split at hp
      · next hb =>
        rcases List.mem_cons.mp hp with h | h
        · subst h; exact hb
        · exact ih (i + 1) (v + 1) p h
      · exact ih (i + 1) v p hp
    · exact absurd hp (List.not_mem_nil p)

theorem assembleGo_map_index (s : Settings) (lats lons heads vxs vys sprays : List ℚ) :
    ∀ fuel i v, (assembleGo s lats lons heads vxs vys sprays fuel i v).map (·.index) =
      List.range' v (assembleGo s lats lons heads vxs vys sprays fuel i v).length := by
  intro fuel
  induction fuel with
  | zero => intro i v; rfl
  | succ n ih =>
    intro i v
    rw [assembleGo]
    split
    · split
      · simp only [List.map_cons, List.length_cons, List.range'_succ, ih (i + 1) (v + 1)]
      · exact ih (i + 1) v
    · rfl

/-- C3: every `GpsPoint` produced by `decode` lies strictly inside the
configured bounding box, and the `index` fields are exactly
`0, 1, ..., count-1` in acceptance order (re-indexed after filtering,
not the original occurrence index in the byte stream). -/
theorem decode_points_inBounds_and_reindexed (s : Settings) (sqrtQ : ℚ → ℚ)
    (data : List Nat) (rid : String) :
    (∀ p ∈ (decode s sqrtQ data rid).points,
      s.lat_min < p.latitude ∧ p.latitude < s.lat_max ∧
      s.lon_min < p.longitude ∧ p.longitude < s.lon_max) ∧
    (decode s sqrtQ data rid).points.map (·.index) =
      List.range (decode s sqrtQ data rid).points.length := by
  constructor
  · intro p hp
    exact assembleGo_mem_inBounds s _ _ _ _ _ _ _ _ _ p hp
  · rw [List.range_eq_range']
    exact assembleGo_map_index s _ _ _ _ _ _ _ _ _

/-- A 24-byte buffer with three levels of length-delimited nesting whose
innermost message holds the doubles `-20.0` (field 1) and `-50.0`
(field 2), which the decoder records at depth 3 and accepts under the
default Brazil bounding box. -/
def sampleBuffer : List Nat :=
  [0x0A, 22, 0x0A, 20, 0x0A, 18, 0x09, 0, 0, 0, 0, 0, 0, 0x34, 0xC0,
   0x11, 0, 0, 0, 0, 0, 0, 0x49, 0xC0]

theorem decode_points_inBounds_and_reindexed_witness :
    -35 < (-20 : ℚ) ∧ (-20 : ℚ) < -5 ∧ -75 < (-50 : ℚ) ∧ (-50 : ℚ) < -35 :=
  (decode_points_inBounds_and_reindexed defaultSettings (fun _ => 0) sampleBuffer "r").1
    ⟨0, -20, -50, none, none, none, none⟩ (by with_unfolding_all decide)

/-- The number of indices in `[i, j)` whose coordinate pair passes the
bounding-box filter: the value of `valid_index` when the loop of
`ProtobufDecoder.decode` reaches index `j` having started at `i`. -/
def acceptCount (s : Settings) (lats lons : List ℚ) (i j : Nat) : Nat :=
  ((List.range' i (j - i)).filter fun m =>
    decide (inBounds s (lats.getD m 0) (lons.getD m 0))).length

theorem acceptCount_self (s : Settings) (lats lons : List ℚ) (i : Nat) :
    acceptCount s lats lons i i = 0 := by
  simp [acceptCount]

theorem acceptCount_step (s : Settings) (lats lons : List ℚ) (i j : Nat) (h : i < j) :
    acceptCount s lats lons i j =
      (if inBounds s (lats.getD i 0) (lons.getD i 0) then 1 else 0) +
        acceptCount s lats lons (i + 1) j := by
  have hj : j - i = (j - (i + 1)) + 1 := by omega
  rw [acceptCount, hj, List.range'_succ, List.filter_cons]
  split
  · next hb =>
    simp only [List.length_cons, acceptCount]
    rw [if_pos (by exact of_decide_eq_true hb)]
    omega
  · next hb =>
    simp only [acceptCount]
    rw [if_neg (by simpa using hb)]
    omega

theorem assembleGo_get_accepted (s : Settings)
    (lats lons heads vxs vys sprays : List ℚ) :
    ∀ fuel i v j, min lats.length lons.length - i ≤ fuel → i ≤ j →
      j < min lats.length lons.length →
      inBounds s (lats.getD j 0) (lons.getD j 0) →
      (assembleGo s lats lons heads vxs vys sprays fuel i v).get?
          (acceptCount s lats lons i j) =
        some ⟨v + acceptCount s lats lons i j, lats.getD j 0, lons.getD j 0,
          headingAt heads j, velocityAt vxs j, velocityAt vys j, sprayAt sprays j⟩ := by
  intro fuel
  induction fuel with
  | zero => intro i v j hf hij hj hb; omega
  | succ n ih =>
    intro i v j hf hij hj hb
    rw [assembleGo]
    rw [if_pos (by omega)]
    rcases Nat.eq_or_lt_of_le hij with rfl | hlt
    · rw [if_pos hb, acceptCount_self]
      simp
    · rw [acceptCount_step s lats lons i j hlt]
      split
      · next hbi =>
        rw [Nat.add_comm 1 (acceptCount s lats lons (i + 1) j)]
        have heq : (GpsPoint.mk v (lats.getD i 0) (lons.getD i 0) (headingAt heads i)
              (velocityAt vxs i) (velocityAt vys i) (sprayAt sprays i) ::
              assembleGo s lats lons heads vxs vys sprays n (i + 1) (v + 1)).get?
              (acceptCount s lats lons (i + 1) j + 1) =
            (assembleGo s lats lons heads vxs vys sprays n (i + 1) (v + 1)).get?
              (acceptCount s lats lons (i + 1) j) := by
          simp [List.get?_eq_getElem?]
        rw [heq,
          show v + (acceptCount s lats lons (i + 1) j + 1) =
            v + 1 + acceptCount s lats lons (i + 1) j from by omega]
        exact ih (i + 1) (v + 1) j (by omega) (by omega) hj hb
      · next hbi =>
        simpa using ih (i + 1) v j (by omega) (by omega) hj hb

/-- C9: whenever the coordinate pair at raw index `j` passes the
bounding-box filter, `decode`'s loop emits a `GpsPoint` for it (at output
position `acceptCount 0 j`, its acceptance rank); an auxiliary value that
exists at `j` but fails its range check (heading outside `[-180, 180]`;
velocity not strictly inside `(-30, 30)`; spray rate not strictly inside
`(0, 50)`, so `0` and `50` themselves fail) merely leaves that field
`none` and never causes the point to be rejected. -/
theorem assemble_accepted_point_spec (s : Settings)
    (lats lons heads vxs vys sprays : List ℚ) (j : Nat)
    (hj : j < min lats.length lons.length)
    (hb : inBounds s (lats.getD j 0) (lons.getD j 0)) :
    (assemble s lats lons heads vxs vys sprays).get? (acceptCount s lats lons 0 j) =
      some ⟨acceptCount s lats lons 0 j, lats.getD j 0, lons.getD j 0,
        headingAt heads j, velocityAt vxs j, velocityAt vys j, sprayAt sprays j⟩ := by
  have := assembleGo_get_accepted s lats lons heads vxs vys sprays
    (min lats.length lons.length) 0 0 j (by omega) (by omega) hj hb
  simpa using this

theorem foldl_min_mem (xs : List ℚ) : ∀ x, xs.foldl min x ∈ x :: xs := by
  induction xs with
  | nil => intro x; exact List.mem_singleton.mpr rfl
  | cons y ys ih =>
    intro x
    rcases List.mem_cons.mp (ih (min x y)) with h | h
    · rcases min_choice x y with hc | hc <;> rw [List.foldl_cons, h, hc]
      · exact List.mem_cons_self x (y :: ys)
      · exact List.mem_cons_of_mem x (List.mem_cons_self y ys)
    · exact List.mem_cons_of_mem x (List.mem_cons_of_mem y h)

theorem foldl_min_le (xs : List ℚ) : ∀ x, ∀ z ∈ x :: xs, xs.foldl min x ≤ z := by
  induction xs with
  | nil =>
    intro x z hz
    rw [List.mem_singleton.mp hz]
    exact le_refl x
  | cons y ys ih =>
    intro x z hz
    rcases List.mem_cons.mp hz with h1 | hz'
    · rw [h1]
      exact le_trans (ih (min x y) _ (List.mem_cons_self _ ys)) (min_le_left x y)
    rcases List.mem_cons.mp hz' with h2 | hz''
    · rw [h2]
      exact le_trans (ih (min x y) _ (List.mem_cons_self _ ys)) (min_le_right x y)
    · exact ih (min x y) z (List.mem_cons_of_mem _ hz'')

theorem foldl_max_mem (xs : List ℚ) : ∀ x, xs.foldl max x ∈ x :: xs := by
  induction xs with
  | nil => intro x; exact List.mem_singleton.mpr rfl
  | cons y ys ih =>
    intro x
    rcases List.mem_cons.mp (ih (max x y)) with h | h
    · rcases max_choice x y with hc | hc <;> rw [List.foldl_cons, h, hc]
      · exact List.mem_cons_self x (y :: ys)
      · exact List.mem_cons_of_mem x (List.mem_cons_self y ys)
    · exact List.mem_cons_of_mem x (List.mem_cons_of_mem y h)

theorem foldl_le_max (xs : List ℚ) : ∀ x, ∀ z ∈ x :: xs, z ≤ xs.foldl max x := by
  induction xs with
  | nil =>
    intro x z hz
    rw [List.mem_singleton.mp hz]
    exact le_refl x
  | cons y ys ih =>
    intro x z hz
    rcases List.mem_cons.mp hz with h1 | hz'
    · rw [h1]
      exact le_trans (le_max_left x y) (ih (max x y) _ (List.mem_cons_self _ ys))
    rcases List.mem_cons.mp hz' with h2 | hz''
    · rw [h2]
      exact le_trans (le_max_right x y) (ih (max x y) _ (List.mem_cons_self _ ys))
    · exact ih (max x y) z (List.mem_cons_of_mem _ hz'')

theorem pyMin_mem (l : List ℚ) (h : l ≠ []) : pyMin l ∈ l := by
  match l with
  | [] => exact absurd rfl h
  | x :: xs => exact foldl_min_mem xs x

theorem pyMin_le (l : List ℚ) : ∀ z ∈ l, pyMin l ≤ z := by
  match l with
  | [] => intro z hz; exact absurd hz (List.not_mem_nil z)
  | x :: xs => exact foldl_min_le xs x

theorem pyMax_mem (l : List ℚ) (h : l ≠ []) : pyMax l ∈ l := by
  match l with
  | [] => exact absurd rfl h
  | x :: xs => exact foldl_max_mem xs x

theorem le_pyMax (l : List ℚ) : ∀ z ∈ l, z ≤ pyMax l := by
  match l with
  | [] => intro z hz; exact absurd hz (List.not_mem_nil z)
  | x :: xs => exact foldl_le_max xs x

theorem assemble_accepted_point_spec_witness :
    ((assemble defaultSettings [-20] [-50] [500] [30] [-5] [50]).get?
        (acceptCount defaultSettings [-20] [-50] 0 0) =
      some ⟨acceptCount defaultSettings [-20] [-50] 0 0, -20, -50,
        headingAt [500] 0, velocityAt [30] 0, velocityAt [-5] 0, sprayAt [50] 0⟩) ∧
    headingAt [500] 0 = none ∧ velocityAt [30] 0 = none ∧
    velocityAt [-5] 0 = some (round2 (-5)) ∧ sprayAt [50] 0 = none :=
  ⟨assemble_accepted_point_spec defaultSettings [-20] [-50] [500] [30] [-5] [50] 0
      (by with_unfolding_all decide) (by with_unfolding_all decide),
    by with_unfolding_all decide, by with_unfolding_all decide,
    by with_unfolding_all decide, by with_unfolding_all decide⟩

/-- A square-root table exact at the perfect squares `1, 4, 9, 25` (the
only inputs it is applied to in concrete statements, where the
floating-point square root is also exact). -/
def sqrtSample (q : ℚ) : ℚ :=
  if q = 1 then 1 else if q = 4 then 2 else if q = 9 then 3 else if q = 25 then 5 else 0

def pts1C4 : List GpsPoint :=
  [⟨0, 0, 0, none, some 1, some 0, none⟩, ⟨1, 0, 0, none, some 3, some 0, none⟩,
   ⟨2, 0, 0, none, some 3, some 4, none⟩]

def pts2C4 : List GpsPoint :=
  [⟨0, 0, 0, none, some 2, some 0, none⟩, ⟨1, 0, 0, none, some 2, some 0, none⟩,
   ⟨2, 0, 0, none, some 3, some 4, none⟩]

/-- C4 counterexample: `pts1C4` has derived speeds `{1, 3, 5}` and
`pts2C4` has `{2, 2, 5}` — different minima (1 vs 2) — yet their
telemetry summaries are identical, because the `Telemetry` dataclass
computes no minimum for the derived speed.  So the summary does not
contain "average, minimum, and maximum ... for each of ... derived
speed" as the claim states. -/
theorem calcTelemetry_missing_speed_min :
    calcTelemetry sqrtSample pts1C4 = calcTelemetry sqrtSample pts2C4 ∧
    pyMin (pts1C4.filterMap (speed_ms sqrtSample)) = 1 ∧
    pyMin (pts2C4.filterMap (speed_ms sqrtSample)) = 2 := by
  refine ⟨?_, ?_, ?_⟩ <;> with_unfolding_all decide

/-- C4 (amended): the telemetry summary holds average, minimum and
maximum (each rounded to 2 decimal places) for heading and spray rate,
but only average and maximum for the derived speed
(`sqrt(vx²+vy²)`, defined only where both velocity components are
present); any signal with no contributing points yields `None` for its
statistics, and the empty point list yields the all-`None` summary. -/
theorem calcTelemetry_spec (sqrtQ : ℚ → ℚ) (pts : List GpsPoint) :
    (pts.filterMap (fun p => p.heading) = [] →
      (calcTelemetry sqrtQ pts).heading_avg = none ∧
      (calcTelemetry sqrtQ pts).heading_min = none ∧
      (calcTelemetry sqrtQ pts).heading_max = none) ∧
    (pts.filterMap (fun p => p.heading) ≠ [] →
      (calcTelemetry sqrtQ pts).heading_avg =
        some (round2 ((pts.filterMap (fun p => p.heading)).sum /
          ((pts.filterMap (fun p => p.heading)).length : ℚ))) ∧
      (∃ m ∈ pts.filterMap (fun p => p.heading),
        (calcTelemetry sqrtQ pts).heading_min = some (round2 m) ∧
        ∀ x ∈ pts.filterMap (fun p => p.heading), m ≤ x) ∧
      (∃ m ∈ pts.filterMap (fun p => p.heading),
        (calcTelemetry sqrtQ pts).heading_max = some (round2 m) ∧
        ∀ x ∈ pts.filterMap (fun p => p.heading), x ≤ m)) ∧
    (pts.filterMap (speed_ms sqrtQ) = [] →
      (calcTelemetry sqrtQ pts).speed_avg_ms = none ∧
      (calcTelemetry sqrtQ pts).speed_max_ms = none) ∧
    (pts.filterMap (speed_ms sqrtQ) ≠ [] →
      (calcTelemetry sqrtQ pts).speed_avg_ms =
        some (round2 ((pts.filterMap (speed_ms sqrtQ)).sum /
          ((pts.filterMap (speed_ms sqrtQ)).length : ℚ))) ∧
      (∃ m ∈ pts.filterMap (speed_ms sqrtQ),
        (calcTelemetry sqrtQ pts).speed_max_ms = some (round2 m) ∧
        ∀ x ∈ pts.filterMap (speed_ms sqrtQ), x ≤ m)) ∧
    (pts.filterMap (fun p => p.spray_rate) = [] →
      (calcTelemetry sqrtQ pts).spray_rate_avg = none ∧
      (calcTelemetry sqrtQ pts).spray_rate_min = none ∧
      (calcTelemetry sqrtQ pts).spray_rate_max = none) ∧
    (pts.filterMap (fun p => p.spray_rate) ≠ [] →
      (calcTelemetry sqrtQ pts).spray_rate_avg =
        some (round2 ((pts.filterMap (fun p => p.spray_rate)).sum /
          ((pts.filterMap (fun p => p.spray_rate)).length : ℚ))) ∧
      (∃ m ∈ pts.filterMap (fun p => p.spray_rate),
        (calcTelemetry sqrtQ pts).spray_rate_min = some (round2 m) ∧
        ∀ x ∈ pts.filterMap (fun p => p.spray_rate), m ≤ x) ∧
      (∃ m ∈ pts.filterMap (fun p => p.spray_rate),
        (calcTelemetry sqrtQ pts).spray_rate_max = some (round2 m) ∧
        ∀ x ∈ pts.filterMap (fun p => p.spray_rate), x ≤ m)) ∧
    calcTelemetry sqrtQ [] = ⟨none, none, none, none, none, none, none, none⟩ := by
  refine ⟨?_, ?_, ?_, ?_, ?_, ?_, rfl⟩
  · intro h
    simp only [calcTelemetry, h]
    exact ⟨rfl, rfl, rfl⟩
  · intro h
    refine ⟨by simp only [calcTelemetry, h, if_neg]; rfl,
      ⟨pyMin (pts.filterMap (fun p => p.heading)), pyMin_mem _ h,
        by simp only [calcTelemetry, h, if_neg]; rfl, pyMin_le _⟩,
      ⟨pyMax (pts.filterMap (fun p => p.heading)), pyMax_mem _ h,
        by simp only [calcTelemetry, h, if_neg]; rfl, le_pyMax _⟩⟩
  · intro h
    simp only [calcTelemetry, h]
    exact ⟨rfl, rfl⟩
  · intro h
    refine ⟨by simp only [calcTelemetry, h, if_neg]; rfl,
      ⟨pyMax (pts.filterMap (speed_ms sqrtQ)), pyMax_mem _ h,
        by simp only [calcTelemetry, h, if_neg]; rfl, le_pyMax _⟩⟩
  · intro h
    simp only [calcTelemetry, h]
    exact ⟨rfl, rfl, rfl⟩
  · intro h
    refine ⟨by simp only [calcTelemetry, h, if_neg]; rfl,
      ⟨pyMin (pts.filterMap (fun p => p.spray_rate)), pyMin_mem _ h,
        by simp only [calcTelemetry, h, if_neg]; rfl, pyMin_le _⟩,
      ⟨pyMax (pts.filterMap (fun p => p.spray_rate)), pyMax_mem _ h,
        by simp only [calcTelemetry, h, if_neg]; rfl, le_pyMax _⟩⟩

theorem calcTelemetry_spec_witness :
    (calcTelemetry sqrtSample pts1C4).speed_avg_ms = some (round2 ((1 + 3 + 5) / 3)) ∧
    (calcTelemetry sqrtSample pts1C4).heading_avg = none := by
  constructor
  · have h := ((calcTelemetry_spec sqrtSample pts1C4).2.2.2.1
      (by with_unfolding_all decide)).1
    rw [h]
    with_unfolding_all decide
  · exact ((calcTelemetry_spec sqrtSample pts1C4).1 (by with_unfolding_all decide)).1

/-- The `i`-th element of the `features` array of a GeoJSON document. -/
def featureAt (j : Json) (i : Nat) : Option Json :=
  match jGet j ("features") with
  | some (Json.arr fs) => fs.get? i
  | _ => none

/-- A top-level key of the `i`-th feature. -/
def featureField (j : Json) (i : Nat) (k : String) : Option Json :=
  match featureAt j i with
  | some f => jGet f k
  | none => none

/-- The `geometry.type` of the `i`-th feature. -/
def featureGeomType (j : Json) (i : Nat) : Option Json :=
  match featureField j i ("geometry") with
  | some g => jGet g ("type")
  | none => none

/-- The `geometry.coordinates` of the `i`-th feature. -/
def featureCoordinates (j : Json) (i : Nat) : Option Json :=
  match featureField j i ("geometry") with
  | some g => jGet g ("coordinates")
  | none => none

/-- A `FlightData` whose single point has a longitude with 7 decimal
digits, exposing that `to_geojson` does not round coordinates. -/
def fdC5 : FlightData :=
  ⟨"r", [⟨0, -20, -481234567 / 10000000, none, none, none, none⟩], none, none⟩

/-- C5 counterexample: the `Point` feature emitted for `fdC5` carries the
longitude `-48.1234567` exactly as stored, which differs from its
6-decimal rounding — `to_geojson` performs no coordinate rounding, so the
claim "coordinates [lon, lat] rounded to 6 decimal places" is false. -/
theorem toGeojson_unrounded_coordinates :
    featureCoordinates (toGeojson (fun q => q) fdC5) 1 =
      some (Json.arr [Json.num (-481234567 / 10000000), Json.num (-20)]) ∧
    round6 (-481234567 / 10000000 : ℚ) ≠ -481234567 / 10000000 := by
  constructor
  · with_unfolding_all rfl
  · with_unfolding_all decide

/-- C5 (amended): for a `FlightData` with `N` points, `to_geojson` emits
exactly `N+1` features — one `LineString` whose coordinate array lists
the `N` `[lon, lat]` pairs exactly as stored, followed by `N` `Point`
features whose coordinates are the stored (unrounded) `[lon, lat]` and
whose properties are the point's full `to_dict` (index, latitude,
longitude, heading, velocity_x, velocity_y, spray_rate, and the derived
`speed_ms`, the only rounded value). -/
theorem toGeojson_features_spec (sqrtQ : ℚ → ℚ) (fd : FlightData) :
    (∃ fs, jGet (toGeojson sqrtQ fd) ("features") = some (Json.arr fs) ∧
      fs.length = fd.points.length + 1) ∧
    featureGeomType (toGeojson sqrtQ fd) 0 = some (Json.str ("LineString")) ∧
    (∃ cs, featureCoordinates (toGeojson sqrtQ fd) 0 = some (Json.arr cs) ∧
      cs = fd.points.map fun p => Json.arr [Json.num p.longitude, Json.num p.latitude]) ∧
    ∀ i, ∀ hi : i < fd.points.length,
      featureGeomType (toGeojson sqrtQ fd) (i + 1) = some (Json.str ("Point")) ∧
      featureCoordinates (toGeojson sqrtQ fd) (i + 1) =
        some (Json.arr [Json.num (fd.points.get ⟨i, hi⟩).longitude,
          Json.num (fd.points.get ⟨i, hi⟩).latitude]) ∧
      featureField (toGeojson sqrtQ fd) (i + 1) ("properties") =
        some (Json.obj (toDict sqrtQ (fd.points.get ⟨i, hi⟩))) := by
  refine ⟨⟨_, by with_unfolding_all rfl, by simp⟩, by with_unfolding_all rfl,
    ⟨_, by with_unfolding_all rfl, rfl⟩, ?_⟩
  intro i hi
  have hidx : fd.points[i]? = some (fd.points.get ⟨i, hi⟩) := by
    rw [List.getElem?_eq_getElem hi]
    rfl
  refine ⟨?_, ?_, ?_⟩
  · simp [featureGeomType, featureField, featureAt, toGeojson, jGet,
      List.lookup, hidx]
  · simp [featureCoordinates, featureField, featureAt, toGeojson, jGet,
      List.lookup, hidx]
  · simp [featureField, featureAt, toGeojson, jGet, List.lookup, hidx]

theorem toGeojson_features_spec_witness :
    featureGeomType (toGeojson (fun q => q) fdC5) 1 = some (Json.str ("Point")) :=
  ((toGeojson_features_spec (fun q => q) fdC5).2.2.2 0 (by decide)).1

/-- C6 counterexample: in `[0x0A, 0x00, 0x08, 0x01]` the first field is a
length-delimited span with `length = 0` whose end (`2 + 0 = 2`) does not
exceed the buffer length (4), yet collection stops: the varint field
`0x08 0x01` that follows is never collected (second conjunct shows it is
collected when parsed on its own).  The Python guard `if length and ...`
treats `length = 0` as falsy and breaks, contradicting "stops only when
position+length exceeds the buffer length". -/
theorem collect_stops_on_zero_length_span :
    collect [10, 0, 8, 1] = [] ∧
    collect [8, 1] = [⟨0, WKind.vint, 1, 1⟩] := by
  constructor <;> with_unfolding_all decide

/-- C6 (amended): at a length-delimited tag, the collector parses the
span as a nested message at `depth+1` and continues at the current level
only when the span is non-empty AND `position+length` does not exceed the
buffer length; it stops this recursion level both when `position+length`
exceeds the buffer length and when `length = 0`. -/
theorem parseLoop_length_delimited_step (maxDepth depth : Nat) (data : List Nat)
    (pos : Nat) (hd : depth ≤ maxDepth) (hp : pos < data.length)
    (htag : (decodeVarint data pos).2 < data.length)
    (hw : (decodeVarint data pos).1 % 8 = 2) :
    ((decodeVarint data (decodeVarint data pos).2).1 ≠ 0 ∧
      (decodeVarint data (decodeVarint data pos).2).2 +
        (decodeVarint data (decodeVarint data pos).2).1 ≤ data.length →
      parseLoop maxDepth depth data pos =
        parseLoop maxDepth (depth + 1)
          (pySlice data (decodeVarint data (decodeVarint data pos).2).2
            (decodeVarint data (decodeVarint data pos).2).1) 0 ++
          parseLoop maxDepth depth data
            ((decodeVarint data (decodeVarint data pos).2).2 +
              (decodeVarint data (decodeVarint data pos).2).1)) ∧
    ((decodeVarint data (decodeVarint data pos).2).1 = 0 ∨
      data.length < (decodeVarint data (decodeVarint data pos).2).2 +
        (decodeVarint data (decodeVarint data pos).2).1 →
      parseLoop maxDepth depth data pos = []) := by
  have e1 : pos < (decodeVarint data pos).2 := decodeVarint_lt data pos hp
  have e2 : (decodeVarint data pos).2 < (decodeVarint data (decodeVarint data pos).2).2 :=
    decodeVarint_lt data _ htag
  have hw0 : ¬((decodeVarint data pos).1 % 8 = 0) := by omega
  have hw1 : ¬((decodeVarint data pos).1 % 8 = 1) := by omega
  constructor
  · intro hc
    conv_lhs => rw [parseLoop, parseFromF]
    rw [if_neg (by omega), if_pos hp, if_neg (by omega), if_neg hw0, if_neg hw1,
      if_pos hw, if_pos hc]
    have hsl : (pySlice data (decodeVarint data (decodeVarint data pos).2).2
        (decodeVarint data (decodeVarint data pos).2).1).length =
        (decodeVarint data (decodeVarint data pos).2).1 := by
      simp only [pySlice, List.length_take, List.length_drop]
      omega
    congr 1
    · exact (parseLoop_eq_parseFromF (2 * data.length) maxDepth (depth + 1) _ 0
        (by omega)).symm
    · exact (parseLoop_eq_parseFromF (2 * data.length) maxDepth depth data _
        (by omega)).symm
  · intro hc
    conv_lhs => rw [parseLoop, parseFromF]
    rw [if_neg (by omega), if_pos hp, if_neg (by omega), if_neg hw0, if_neg hw1,
      if_pos hw, if_neg (by omega)]

theorem parseLoop_length_delimited_step_witness :
    parseLoop 6 0 [10, 2, 8, 1, 8, 5] 0 =
      parseLoop 6 1 (pySlice [10, 2, 8, 1, 8, 5] 2 2) 0 ++
        parseLoop 6 0 [10, 2, 8, 1, 8, 5] 4 :=
  (parseLoop_length_delimited_step 6 0 [10, 2, 8, 1, 8, 5] 0
      (by decide) (by decide) (by with_unfolding_all decide)
      (by with_unfolding_all decide)).1 (by with_unfolding_all decide)

theorem and_128_eq_zero (n : Nat) (h : n < 128) : n &&& 128 = 0 := by
  apply Nat.eq_of_testBit_eq
  intro i
  rw [Nat.testBit_and, Nat.zero_testBit]
  by_cases hi : i = 7
  · subst hi
    rw [Nat.testBit_lt_two_pow h]
    simp
  · rw [show (128 : Nat) = 2 ^ 7 from by norm_num, Nat.testBit_two_pow]
    simp [Ne.symm hi]

theorem and_128_of_ge (n : Nat) (h1 : 128 ≤ n) (h2 : n < 256) : n &&& 128 = 128 := by
  apply Nat.eq_of_testBit_eq
  intro i
  rw [Nat.testBit_and]
  by_cases hi : i = 7
  · subst hi
    have hb : n.testBit 7 = true := by
      rw [Nat.testBit_to_div_mod]
      have : n / 2 ^ 7 = 1 := by
        norm_num
        omega
      rw [this]
      decide
    rw [hb, show (128 : Nat) = 2 ^ 7 from by norm_num, Nat.testBit_two_pow]
    simp
  · rw [show (128 : Nat) = 2 ^ 7 from by norm_num, Nat.testBit_two_pow]
    simp [Ne.symm hi]

theorem decodeVarintAux_cons (b : Nat) (t : List Nat) :
    ∀ fuel pos r s, decodeVarintAux (b :: t) fuel (pos + 1) r s =
      ((decodeVarintAux t fuel pos r s).1, (decodeVarintAux t fuel pos r s).2 + 1) := by
  intro fuel
  induction fuel with
  | zero => intro pos r s; rfl
  | succ n ih =>
    intro pos r s
    rw [decodeVarintAux, decodeVarintAux]
    simp only [List.length_cons, List.getD_cons_succ]
    by_cases hp : pos < t.length
    · rw [if_pos (by omega), if_pos hp]
      split
      · rfl
      · exact ih (pos + 1) _ (s + 7)
    · rw [if_neg (by omega), if_neg hp]

/-- Protobuf varint encoding as the spec describes it: 7-bit groups
low-to-high, continuation bit `0x80` on all but the last byte.  (The
repository has no encoder; this is the spec side of the round-trip.) -/
def encodeVarint (n : Nat) : List Nat :=
  if n < 128 then [n] else (n % 128 + 128) :: encodeVarint (n / 128)
termination_by n
decreasing_by exact Nat.div_lt_self (by omega) (by norm_num)

theorem encodeVarint_roundtrip_aux :
    ∀ n rest r s fuel, r < 2 ^ s → (encodeVarint n).length ≤ fuel →
      decodeVarintAux (encodeVarint n ++ rest) fuel 0 r s =
        (r + n * 2 ^ s, (encodeVarint n).length) := by
  intro n
  induction n using Nat.strong_induction_on with
  | _ n ih =>
    intro rest r s fuel hr hf
    by_cases hn : n < 128
    · rw [encodeVarint, if_pos hn] at hf ⊢
      match fuel, hf with
      | f + 1, _ =>
        rw [decodeVarintAux, if_pos (by simp)]
        have hb : ([n] ++ rest).getD 0 0 = n := rfl
        rw [hb, if_pos (and_128_eq_zero n hn), and_127, Nat.mod_eq_of_lt hn,
          lor_shift_add r n s hr]
        rfl
    · rw [encodeVarint, if_neg hn] at hf ⊢
      match fuel, hf with
      | f + 1, hf =>
        rw [decodeVarintAux, if_pos (by simp)]
        have hb : (((n % 128 + 128) :: encodeVarint (n / 128)) ++ rest).getD 0 0 =
            n % 128 + 128 := rfl
        rw [hb, if_neg (by rw [and_128_of_ge _ (by omega) (by omega)]; omega), and_127,
          show (n % 128 + 128) % 128 = n % 128 from by omega,
          lor_shift_add r (n % 128) s hr]
        have hcons : ((n % 128 + 128) :: encodeVarint (n / 128)) ++ rest =
            (n % 128 + 128) :: (encodeVarint (n / 128) ++ rest) := rfl
        rw [hcons, show (0 : Nat) + 1 = 0 + 1 from rfl]
        rw [decodeVarintAux_cons (n % 128 + 128) (encodeVarint (n / 128) ++ rest) f 0
          (r + n % 128 * 2 ^ s) (s + 7)]
        have hr' : r + n % 128 * 2 ^ s < 2 ^ (s + 7) := by
          have h127 : n % 128 ≤ 127 := by omega
          have hmul : n % 128 * 2 ^ s ≤ 127 * 2 ^ s :=
            Nat.mul_le_mul_right (2 ^ s) h127
          have h2 : (2 : ℕ) ^ (s + 7) = 2 ^ s * 128 := by
            rw [pow_add]
            norm_num
          omega
        have hlen : (encodeVarint (n / 128)).length ≤ f := by
          simp only [List.length_cons] at hf
          omega
        rw [ih (n / 128) (Nat.div_lt_self (by omega) (by norm_num)) rest
          (r + n % 128 * 2 ^ s) (s + 7) f hr' hlen]
        have hsplit : n % 128 + 128 * (n / 128) = n := Nat.mod_add_div n 128
        have hval : r + n % 128 * 2 ^ s + n / 128 * 2 ^ (s + 7) = r + n * 2 ^ s := by
          have h2 : (2 : ℕ) ^ (s + 7) = 2 ^ s * 128 := by
            rw [pow_add]
            norm_num
          calc r + n % 128 * 2 ^ s + n / 128 * 2 ^ (s + 7)
              = r + n % 128 * 2 ^ s + n / 128 * (2 ^ s * 128) := by rw [h2]
            _ = r + (n % 128 + 128 * (n / 128)) * 2 ^ s := by ring
            _ = r + n * 2 ^ s := by rw [hsplit]
        rw [hval]
        simp only [List.length_cons]

/-- C8: encoding any natural number as a protobuf varint (7-bit groups
low-to-high, continuation bit `0x80` on all but the last byte) and
decoding it with `_decode_varint` returns the identical integer, with the
position advanced past exactly the encoded bytes — for any trailing
bytes after the encoding. -/
theorem encodeVarint_roundtrip (n : Nat) (rest : List Nat) :
    decodeVarint (encodeVarint n ++ rest) 0 = (n, (encodeVarint n).length) := by
  have := encodeVarint_roundtrip_aux n rest 0 0 (encodeVarint n ++ rest).length
    (by norm_num) (by rw [List.length_append]; omega)
  rw [decodeVarint, Nat.sub_zero]
  simpa using this

/-- The value accumulated from a run of bytes: 7-bit payloads shifted
into place, low group first (a right-fold counterpart of the decoder's
left accumulation). -/
def varintAccum : List Nat → Nat → Nat
  | [], _ => 0
  | b :: t, shift => ((b &&& 0x7F) <<< shift) ||| varintAccum t (shift + 7)

theorem decodeVarintAux_all_cont (data : List Nat) :
    ∀ fuel pos r s, data.length - pos ≤ fuel →
      (∀ i, pos ≤ i → i < data.length → data.getD i 0 &&& 0x80 ≠ 0) →
      decodeVarintAux data fuel pos r s =
        (r ||| varintAccum (data.drop pos) s, max pos data.length) := by
  intro fuel
  induction fuel with
  | zero =>
    intro pos r s hf hc
    have hdrop : data.drop pos = [] := List.drop_eq_nil_of_le (by omega)
    rw [decodeVarintAux, hdrop]
    simp only [varintAccum, Nat.or_zero]
    congr 1
    omega
  | succ n ih =>
    intro pos r s hf hc
    rw [decodeVarintAux]
    by_cases hp : pos < data.length
    · rw [if_pos hp, if_neg (hc pos (Nat.le_refl pos) hp)]
      rw [ih (pos + 1) _ (s + 7) (by omega) (fun i h1 h2 => hc i (by omega) h2)]
      have hdrop : data.drop pos = data.getD pos 0 :: data.drop (pos + 1) := by
        rw [List.getD_eq_getElem data 0 hp, List.drop_eq_getElem_cons hp]
      rw [hdrop]
      simp only [varintAccum]
      rw [Prod.mk.injEq]
      refine ⟨by rw [Nat.or_assoc], by omega⟩
    · rw [if_neg hp]
      have hdrop : data.drop pos = [] := List.drop_eq_nil_of_le (by omega)
      rw [hdrop]
      simp only [varintAccum, Nat.or_zero]
      congr 1
      omega

/-- C10: when every byte from `pos` on has the continuation bit set (the
buffer ends mid-varint), `_decode_varint` returns the integer accumulated
from the bytes read so far — not a sentinel — with the position at the
buffer end; and the collector's varint branch records such a partial
value as a normal field value when it is below `1e15`: truncating
`[0x08, 0x81, 0x01]` (field 1, varint 129) after two bytes yields the
value 1, which corresponds to no complete field of the original stream
(whose only value is 129). -/
theorem decodeVarint_partial_value :
    (∀ data pos, pos < data.length →
      (∀ i, pos ≤ i → i < data.length → data.getD i 0 &&& 0x80 ≠ 0) →
      decodeVarint data pos = (varintAccum (data.drop pos) 0, data.length)) ∧
    collect [8, 129, 1] = [⟨0, WKind.vint, 1, 129⟩] ∧
    collect (List.take 2 [8, 129, 1]) = [⟨0, WKind.vint, 1, 1⟩] ∧
    ⟨0, WKind.vint, 1, 1⟩ ∉ collect [8, 129, 1] := by
  refine ⟨?_, ?_, ?_, ?_⟩
  · intro data pos hp hc
    rw [decodeVarint, decodeVarintAux_all_cont data (data.length - pos) pos 0 0
      (Nat.le_refl _) hc, Prod.mk.injEq]
    refine ⟨Nat.zero_or _, by omega⟩
  · with_unfolding_all decide
  · with_unfolding_all decide
  · with_unfolding_all decide

theorem decodeVarint_partial_value_witness :
    decodeVarint [8, 129] 1 = (varintAccum ([8, 129].drop 1) 0, 2) :=
  decodeVarint_partial_value.1 [8, 129] 1 (by decide)
    (fun i h1 h2 => by
      simp only [List.length_cons, List.length_nil] at h2
      have : i = 1 := by omega
      subst this
      decide)

/-- C1 counterexample: the span `"000"` (`[48, 48, 48]`) decodes as a
printable UTF-8 string AND parses as a non-empty nested message (second
conjunct), but `decode_protobuf_raw` records only the string and skips
the nested-message step (`continue`): the two interpretations are NOT
both retained — string wins by precedence.  (`_extract_all_values`, the
other cited symbol, records no strings at all: its record type has only
`int_`/`dbl_`/`flt_` buckets.) -/
theorem decodeProtobufRaw_string_precedence_counterexample :
    decodeProtobufRaw asciiPrintable [10, 3, 48, 48, 48] =
      [RawItem.strv 1 [48, 48, 48]] ∧
    decodeProtobufRaw asciiPrintable [48, 48, 48] =
      [RawItem.vint 6 (some 48), RawItem.vint 6 none] := by
  exact ⟨rfl, rfl⟩

/-- C1 (amended): when a length-delimited span within bounds decodes as
non-empty printable UTF-8, `decode_protobuf_raw` records exactly one item
for it — a string keyed by field number — and continues after the span:
it does NOT additionally parse the span as a nested message (the string
interpretation takes precedence via `continue`).  The recursive collector
`_extract_all_values` records no string values at all. -/
theorem rawLoop_string_precedence (printable : Nat → Bool) (data : List Nat)
    (pos tag p1 len p2 : Nat) (cps : List Nat)
    (hp : pos < data.length)
    (h1 : decodeVarintR data pos = (some tag, p1))
    (hw : tag % 8 = 2)
    (h2 : decodeVarintR data p1 = (some len, p2))
    (hfit : p2 + len ≤ data.length)
    (hutf : utf8Decode (pySlice data p2 len) = some cps)
    (hprint : printableOk printable cps = true)
    (hne : 0 < cps.length) :
    rawLoop printable data pos =
      RawItem.strv (tag / 8) cps :: rawLoop printable data (p2 + len) := by
  have e1 : pos < p1 := decodeVarintR_some_lt data pos tag p1 h1
  have e2 : p1 < p2 := decodeVarintR_some_lt data p1 len p2 h2
  conv_lhs => rw [rawLoop, rawLoopF]
  rw [if_pos hp, h1]
  simp only []
  rw [if_neg (by omega), if_neg (by omega), if_pos hw, h2]
  simp only []
  rw [if_neg (by omega), hutf]
  simp only []
  rw [if_pos ⟨hprint, hne⟩]
  congr 1
  exact (rawLoop_eq_rawLoopF printable (2 * data.length) data (p2 + len) (by omega)).symm

theorem rawLoop_string_precedence_witness :
    rawLoop asciiPrintable [10, 2, 49, 50, 8, 7] 0 =
      RawItem.strv 1 [49, 50] :: rawLoop asciiPrintable [10, 2, 49, 50, 8, 7] 4 :=
  rawLoop_string_precedence asciiPrintable [10, 2, 49, 50, 8, 7] 0 10 1 2 2 [49, 50]
    (by decide) (by with_unfolding_all decide) (by decide)
    (by with_unfolding_all decide) (by decide) (by with_unfolding_all decide)
    (by decide) (by decide)

theorem getD_take (l : List Nat) : ∀ k i, i < k → (l.take k).getD i 0 = l.getD i 0 := by
  induction l with
  | nil => intro k i h; rw [List.take_nil]
  | cons a t ih =>
    intro k i h
    match k, i with
    | k + 1, 0 => rfl
    | k + 1, i + 1 =>
      simp only [List.take_succ_cons, List.getD_cons_succ]
      exact ih k i (by omega)

theorem pySlice_take (l : List Nat) (k pos n : Nat) (h : pos + n ≤ k) :
    pySlice (l.take k) pos n = pySlice l pos n := by
  simp only [pySlice]
  rw [List.drop_take, List.take_take]
  congr 1
  omega

theorem prefix_append_both (l l₁ l₂ : List Entry) (h : l₁ <+: l₂) :
    l ++ l₁ <+: l ++ l₂ := by
  obtain ⟨t, ht⟩ := h
  exact ⟨t, by rw [List.append_assoc, ht]⟩

theorem decodeVarintAux_take (data : List Nat) (k : Nat) (hk : k ≤ data.length) :
    ∀ fuel pos r s, (decodeVarintAux data fuel pos r s).2 ≤ k →
      (decodeVarintAux data fuel pos r s).2 < data.length →
      decodeVarintAux (data.take k) fuel pos r s = decodeVarintAux data fuel pos r s := by
  intro fuel
  induction fuel with
  | zero => intro pos r s h1 h2; rfl
  | succ n ih =>
    intro pos r s h1 h2
    by_cases hp : pos < data.length
    · have hlt : pos < (decodeVarintAux data (n + 1) pos r s).2 :=
        decodeVarintAux_lt data (n + 1) pos r s hp (by omega)
      have hposk : pos < k := by omega
      rw [decodeVarintAux, decodeVarintAux,
        if_pos (show pos < (data.take k).length from by rw [List.length_take]; omega),
        if_pos hp, getD_take data k pos hposk]
      by_cases hterm : data.getD pos 0 &&& 128 = 0
      · rw [if_pos hterm, if_pos hterm]
      · rw [if_neg hterm, if_neg hterm]
        have heq : decodeVarintAux data (n + 1) pos r s =
            decodeVarintAux data n (pos + 1)
              (r ||| ((data.getD pos 0 &&& 127) <<< s)) (s + 7) := by
          rw [decodeVarintAux, if_pos hp, if_neg hterm]
        rw [heq] at h1 h2
        exact ih (pos + 1) _ (s + 7) h1 h2
    · exfalso
      have : (decodeVarintAux data (n + 1) pos r s).2 = pos := by
        rw [decodeVarintAux, if_neg hp]
      omega

theorem decodeVarint_take (data : List Nat) (k pos : Nat) (hk : k ≤ data.length)
    (h1 : (decodeVarint data pos).2 ≤ k) (h2 : (decodeVarint data pos).2 < data.length) :
    decodeVarint (data.take k) pos = decodeVarint data pos := by
  rw [decodeVarint, decodeVarint,
    decodeVarintAux_fuel_irrel (data.take k) ((data.take k).length - pos)
      (data.length - pos) pos 0 0 (Nat.le_refl _) (by rw [List.length_take]; omega)]
  exact decodeVarintAux_take data k hk (data.length - pos) pos 0 0 h1 h2

/-- The values the collector's loop records strictly before byte
position `k`: it replays the very same steps as `parse_recursive` on
`data` (same tag reads, same guards), but keeps a step only when every
byte the step consumes lies below `k` — a nested span below `k` is parsed
in full (`parseLoop`), since the whole span precedes the truncation
point.  For `k = data.length` this is exactly the full parse
(`collectUpTo_full`). -/
def collectUpTo (maxDepth depth : Nat) (data : List Nat) (k : Nat) : Nat → Nat → List Entry
  | 0, _ => []
  | fuel + 1, pos =>
    if maxDepth < depth then []
    else if pos < k then
      if (decodeVarint data pos).2 ≥ k then []
      else if (decodeVarint data pos).1 % 8 = 0 then
        if (decodeVarint data (decodeVarint data pos).2).2 ≤ k then
          (if (decodeVarint data (decodeVarint data pos).2).1 < 10 ^ 15 then
            [⟨depth, WKind.vint, (decodeVarint data pos).1 / 8,
              ((decodeVarint data (decodeVarint data pos).2).1 : ℚ)⟩]
          else []) ++ collectUpTo maxDepth depth data k fuel
            (decodeVarint data (decodeVarint data pos).2).2
        else []
      else if (decodeVarint data pos).1 % 8 = 1 then
        if (decodeVarint data pos).2 + 8 ≤ k then
          (match unpackDouble (pySlice data (decodeVarint data pos).2 8) with
           | some v =>
             if -(10 ^ 10) < v ∧ v < 10 ^ 10 then
               [⟨depth, WKind.vdbl, (decodeVarint data pos).1 / 8, v⟩]
             else []
           | none => []) ++
            collectUpTo maxDepth depth data k fuel ((decodeVarint data pos).2 + 8)
        else []
      else if (decodeVarint data pos).1 % 8 = 2 then
        if (decodeVarint data (decodeVarint data pos).2).2 ≤ k ∧
            (decodeVarint data (decodeVarint data pos).2).1 ≠ 0 ∧
            (decodeVarint data (decodeVarint data pos).2).2 +
              (decodeVarint data (decodeVarint data pos).2).1 ≤ k then
          parseLoop maxDepth (depth + 1)
            (pySlice data (decodeVarint data (decodeVarint data pos).2).2
              (decodeVarint data (decodeVarint data pos).2).1) 0 ++
            collectUpTo maxDepth depth data k fuel
              ((decodeVarint data (decodeVarint data pos).2).2 +
                (decodeVarint data (decodeVarint data pos).2).1)
        else []
      else if (decodeVarint data pos).1 % 8 = 5 then
        if (decodeVarint data pos).2 + 4 ≤ k then
          (match unpackFloat (pySlice data (decodeVarint data pos).2 4) with
           | some v =>
             if -(10 ^ 10) < v ∧ v < 10 ^ 10 then
               [⟨depth, WKind.vflt, (decodeVarint data pos).1 / 8, v⟩]
             else []
           | none => []) ++
            collectUpTo maxDepth depth data k fuel ((decodeVarint data pos).2 + 4)
        else []
      else []
    else []

/-- `collectUpTo` with canonical (always sufficient) fuel. -/
def collectBefore (maxDepth depth : Nat) (data : List Nat) (pos k : Nat) : List Entry :=
  collectUpTo maxDepth depth data k (2 * data.length + 1) pos

theorem parseLoop_out_of_range (maxDepth depth : Nat) (data : List Nat) (pos : Nat)
    (h : data.length ≤ pos) : parseLoop maxDepth depth data pos = [] := by
  rw [parseLoop, parseFromF]
  split
  · rfl
  · rw [if_neg (by omega)]

theorem collectUpTo_full (maxDepth depth : Nat) (data : List Nat) :
    ∀ fuel pos, 2 * data.length - pos < fuel →
      collectUpTo maxDepth depth data data.length fuel pos =
        parseLoop maxDepth depth data pos := by
  intro fuel
  induction fuel with
  | zero => intro pos hf; omega
  | succ n ih =>
    intro pos hf
    rw [collectUpTo]
    conv_rhs => rw [parseLoop, parseFromF]
    by_cases c1 : maxDepth < depth
    case pos => rw [if_pos c1, if_pos c1]
    rw [if_neg c1, if_neg c1]
    by_cases c2 : pos < data.length
    case neg => rw [if_neg c2, if_neg c2]
    rw [if_pos c2, if_pos c2]
    have e1 : pos < (decodeVarint data pos).2 := decodeVarint_lt data pos c2
    by_cases c3 : (decodeVarint data pos).2 ≥ data.length
    case pos => rw [if_pos c3, if_pos c3]
    rw [if_neg c3, if_neg c3]
    have hp1 : (decodeVarint data pos).2 < data.length := by omega
    by_cases c4 : (decodeVarint data pos).1 % 8 = 0
    case pos =>
      rw [if_pos c4, if_pos c4]
      have e2 : (decodeVarint data pos).2 <
          (decodeVarint data (decodeVarint data pos).2).2 :=
        decodeVarint_lt data _ hp1
      have hle : (decodeVarint data (decodeVarint data pos).2).2 ≤ data.length :=
        decodeVarint_le_length data _ (by omega)
      rw [if_pos hle]
      congr 1
      rw [ih _ (by omega)]
      exact parseLoop_eq_parseFromF (2 * data.length) maxDepth depth data _ (by omega)
    rw [if_neg c4, if_neg c4]
    by_cases c5 : (decodeVarint data pos).1 % 8 = 1
    case pos =>
      rw [if_pos c5, if_pos c5]
      by_cases c5a : (decodeVarint data pos).2 + 8 ≤ data.length
      · rw [if_pos c5a, if_pos c5a]
        congr 1
        rw [ih _ (by omega)]
        exact parseLoop_eq_parseFromF (2 * data.length) maxDepth depth data _ (by omega)
      · rw [if_neg c5a, if_neg c5a]
        rw [← parseLoop_eq_parseFromF (2 * data.length) maxDepth depth data _ (by omega),
          parseLoop_out_of_range maxDepth depth data _ (by omega)]
        rfl
    rw [if_neg c5, if_neg c5]
    by_cases c6 : (decodeVarint data pos).1 % 8 = 2
    case pos =>
      rw [if_pos c6, if_pos c6]
      have e2 : (decodeVarint data pos).2 <
          (decodeVarint data (decodeVarint data pos).2).2 :=
        decodeVarint_lt data _ hp1
      have hle : (decodeVarint data (decodeVarint data pos).2).2 ≤ data.length :=
        decodeVarint_le_length data _ (by omega)
      by_cases c6a : (decodeVarint data (decodeVarint data pos).2).1 ≠ 0 ∧
          (decodeVarint data (decodeVarint data pos).2).2 +
            (decodeVarint data (decodeVarint data pos).2).1 ≤ data.length
      · rw [if_pos ⟨hle, c6a.1, c6a.2⟩, if_pos c6a]
        have hsl : (pySlice data (decodeVarint data (decodeVarint data pos).2).2
            (decodeVarint data (decodeVarint data pos).2).1).length =
            (decodeVarint data (decodeVarint data pos).2).1 := by
          simp only [pySlice, List.length_take, List.length_drop]
          omega
        congr 1
        · exact parseLoop_eq_parseFromF (2 * data.length) maxDepth (depth + 1) _ 0
            (by omega)
        · rw [ih _ (by omega)]
          exact parseLoop_eq_parseFromF (2 * data.length) maxDepth depth data _
            (by omega)
      · rw [if_neg (by intro hc; exact c6a ⟨hc.2.1, hc.2.2⟩), if_neg c6a]
    rw [if_neg c6, if_neg c6]
    by_cases c8 : (decodeVarint data pos).1 % 8 = 5
    case pos =>
      rw [if_pos c8, if_pos c8]
      by_cases c8a : (decodeVarint data pos).2 + 4 ≤ data.length
      · rw [if_pos c8a, if_pos c8a]
        congr 1
        rw [ih _ (by omega)]
        exact parseLoop_eq_parseFromF (2 * data.length) maxDepth depth data _ (by omega)
      · rw [if_neg c8a, if_neg c8a]
        rw [← parseLoop_eq_parseFromF (2 * data.length) maxDepth depth data _ (by omega),
          parseLoop_out_of_range maxDepth depth data _ (by omega)]
        rfl
    case neg => rw [if_neg c8, if_neg c8]

theorem collectUpTo_prefix_of_take (maxDepth : Nat) (data : List Nat) (k : Nat)
    (hk : k < data.length) :
    ∀ fuel depth pos, collectUpTo maxDepth depth data k fuel pos <+:
      parseLoop maxDepth depth (data.take k) pos := by
  have hkl : (data.take k).length = k := by
    rw [List.length_take]
    omega
  intro fuel
  induction fuel with
  | zero => intro depth pos; exact List.nil_prefix
  | succ n ih =>
    intro depth pos
    rw [collectUpTo]
    by_cases c1 : maxDepth < depth
    case pos => rw [if_pos c1]; exact List.nil_prefix
    rw [if_neg c1]
    by_cases c2 : pos < k
    case neg => rw [if_neg c2]; exact List.nil_prefix
    rw [if_pos c2]
    have hposlen : pos < data.length := by omega
    have e1 : pos < (decodeVarint data pos).2 := decodeVarint_lt data pos hposlen
    by_cases c3 : (decodeVarint data pos).2 ≥ k
    case pos => rw [if_pos c3]; exact List.nil_prefix
    rw [if_neg c3]
    have hp1k : (decodeVarint data pos).2 < k := by omega
    have hp1len : (decodeVarint data pos).2 < data.length := by omega
    have htag : decodeVarint (data.take k) pos = decodeVarint data pos :=
      decodeVarint_take data k pos (by omega) (by omega) (by omega)
    by_cases c4 : (decodeVarint data pos).1 % 8 = 0
    case pos =>
      rw [if_pos c4]
      have e2 : (decodeVarint data pos).2 <
          (decodeVarint data (decodeVarint data pos).2).2 :=
        decodeVarint_lt data _ hp1len
      by_cases cInc : (decodeVarint data (decodeVarint data pos).2).2 ≤ k
      case neg => rw [if_neg cInc]; exact List.nil_prefix
      rw [if_pos cInc]
      have hval : decodeVarint (data.take k) (decodeVarint data pos).2 =
          decodeVarint data (decodeVarint data pos).2 :=
        decodeVarint_take data k _ (by omega) (by omega) (by omega)
      conv_rhs => rw [parseLoop, parseFromF]
      rw [htag, hval, if_neg c1, if_pos (show pos < (data.take k).length from by omega),
        if_neg (show ¬((decodeVarint data pos).2 ≥ (data.take k).length) from by omega),
        if_pos c4,
        ← parseLoop_eq_parseFromF (2 * (data.take k).length) maxDepth depth
          (data.take k) _ (by omega)]
      exact prefix_append_both _ _ _ (ih depth _)
    rw [if_neg c4]
    by_cases c5 : (decodeVarint data pos).1 % 8 = 1
    case pos =>
      rw [if_pos c5]
      by_cases cInc : (decodeVarint data pos).2 + 8 ≤ k
      case neg => rw [if_neg cInc]; exact List.nil_prefix
      rw [if_pos cInc]
      conv_rhs => rw [parseLoop, parseFromF]
      rw [htag, if_neg c1, if_pos (show pos < (data.take k).length from by omega),
        if_neg (show ¬((decodeVarint data pos).2 ≥ (data.take k).length) from by omega),
        if_neg c4, if_pos c5,
        if_pos (show (decodeVarint data pos).2 + 8 ≤ (data.take k).length from by omega),
        pySlice_take data k _ 8 cInc,
        ← parseLoop_eq_parseFromF (2 * (data.take k).length) maxDepth depth
          (data.take k) _ (by omega)]
      exact prefix_append_both _ _ _ (ih depth _)
    rw [if_neg c5]
    by_cases c6 : (decodeVarint data pos).1 % 8 = 2
    case pos =>
      rw [if_pos c6]
      have e2 : (decodeVarint data pos).2 <
          (decodeVarint data (decodeVarint data pos).2).2 :=
        decodeVarint_lt data _ hp1len
      by_cases cInc : (decodeVarint data (decodeVarint data pos).2).2 ≤ k ∧
          (decodeVarint data (decodeVarint data pos).2).1 ≠ 0 ∧
          (decodeVarint data (decodeVarint data pos).2).2 +
            (decodeVarint data (decodeVarint data pos).2).1 ≤ k
      case neg => rw [if_neg cInc]; exact List.nil_prefix
      rw [if_pos cInc]
      obtain ⟨hc1, hc2, hc3⟩ := cInc
      have hval : decodeVarint (data.take k) (decodeVarint data pos).2 =
          decodeVarint data (decodeVarint data pos).2 :=
        decodeVarint_take data k _ (by omega) (by omega) (by omega)
      have hsl : (pySlice data (decodeVarint data (decodeVarint data pos).2).2
          (decodeVarint data (decodeVarint data pos).2).1).length =
          (decodeVarint data (decodeVarint data pos).2).1 := by
        simp only [pySlice, List.length_take, List.length_drop]
        omega
      conv_rhs => rw [parseLoop, parseFromF]
      rw [htag, hval, if_neg c1, if_pos (show pos < (data.take k).length from by omega),
        if_neg (show ¬((decodeVarint data pos).2 ≥ (data.take k).length) from by omega),
        if_neg c4, if_neg c5, if_pos c6,
        if_pos (show (decodeVarint data (decodeVarint data pos).2).1 ≠ 0 ∧
          (decodeVarint data (decodeVarint data pos).2).2 +
            (decodeVarint data (decodeVarint data pos).2).1 ≤ (data.take k).length from
          ⟨hc2, by omega⟩),
        pySlice_take data k _ _ hc3,
        ← parseLoop_eq_parseFromF (2 * (data.take k).length) maxDepth (depth + 1)
          (pySlice data (decodeVarint data (decodeVarint data pos).2).2
            (decodeVarint data (decodeVarint data pos).2).1) 0
          (by rw [hsl, hkl]; omega),
        ← parseLoop_eq_parseFromF (2 * (data.take k).length) maxDepth depth
          (data.take k) _ (by omega)]
      exact prefix_append_both _ _ _ (ih depth _)
    rw [if_neg c6]
    by_cases c8 : (decodeVarint data pos).1 % 8 = 5
    case pos =>
      rw [if_pos c8]
      by_cases cInc : (decodeVarint data pos).2 + 4 ≤ k
      case neg => rw [if_neg cInc]; exact List.nil_prefix
      rw [if_pos cInc]
      conv_rhs => rw [parseLoop, parseFromF]
      rw [htag, if_neg c1, if_pos (show pos < (data.take k).length from by omega),
        if_neg (show ¬((decodeVarint data pos).2 ≥ (data.take k).length) from by omega),
        if_neg c4, if_neg c5, if_neg c6, if_pos c8,
        if_pos (show (decodeVarint data pos).2 + 4 ≤ (data.take k).length from by omega),
        pySlice_take data k _ 4 cInc,
        ← parseLoop_eq_parseFromF (2 * (data.take k).length) maxDepth depth
          (data.take k) _ (by omega)]
      exact prefix_append_both _ _ _ (ih depth _)
    case neg =>
      rw [if_neg c8]
      exact List.nil_prefix

/-- C7: truncating a buffer at any byte position `k` loses no completed
work — the collection (a total function: no step can raise) on the
truncated buffer `data.take k` starts with exactly the values whose
parsing completed strictly below the truncation point
(`collectBefore ... k`, which replays the same steps as the collector and
keeps those consuming only bytes below `k`; at `k = data.length` it IS
the full collection, per the first conjunct).  This covers in particular
every buffer cut mid-varint or mid-length-delimited span. -/
theorem collect_truncation_keeps_parsed_values (data : List Nat) (k : Nat)
    (hk : k ≤ data.length) :
    collectBefore 6 0 data 0 data.length = collect data ∧
    collectBefore 6 0 data 0 k <+: collect (data.take k) := by
  constructor
  · exact collectUpTo_full 6 0 data (2 * data.length + 1) 0 (by omega)
  · rcases Nat.eq_or_lt_of_le hk with heq | hlt
    · rw [heq, List.take_length]
      have h := collectUpTo_full 6 0 data (2 * data.length + 1) 0 (by omega)
      show collectUpTo 6 0 data data.length (2 * data.length + 1) 0 <+: collect data
      rw [h]
      exact List.prefix_refl _
    · exact collectUpTo_prefix_of_take 6 data k hlt (2 * data.length + 1) 0 0

theorem collect_truncation_keeps_parsed_values_witness :
    collectBefore 6 0 [8, 1, 8, 2] 0 3 <+: collect (List.take 3 [8, 1, 8, 2]) :=
  (collect_truncation_keeps_parsed_values [8, 1, 8, 2] 3 (by decide)).2

end DJI
